import Mathlib

/-!
# Verification of the Tel Aviv bus-lane status engine

A shallow embedding, in Lean 4, of the schedule-reconciliation core of the
TelAvivBusLanes web application (`app.js`, `bus_lane_hours.js`,
`community_reports.js`), together with theorems settling the frozen claims
about it.

Modelling conventions:
* JavaScript numbers that hold decimal hours, scores, distances and
  coordinates are modelled as `ℚ` (every constant appearing in the source is
  a small decimal, exactly representable; all the code does with them is
  compare, add, multiply and divide, so `ℚ` is a faithful model).
* JavaScript `null`/`undefined` attribute values are modelled with `Option`.
* Module-level mutable state (`SIGN_OVERRIDES`, `SIGN_OVERRIDES_BY_OID`,
  the GPS filter registers) is passed explicitly as records.
* JavaScript objects used as string-keyed dictionaries are modelled as
  association lists in insertion order (`assocSet` mirrors property
  assignment: overwriting keeps the key position, a new key is appended),
  because the source iterates `Object.keys` in that order.
-/

/-! ## JavaScript string primitives used by `normalizeStreet` -/

/-- The characters matched by JavaScript's `\s` (and removed by
`String.prototype.trim`): ASCII whitespace, NBSP, the Unicode space
separators, line/paragraph separators and the BOM. -/
def isJsWs (c : Char) : Bool :=
  c = ' ' || c = '\t' || c = '\n' || c.toNat = 11 || c.toNat = 12 || c = '\r' ||
  c.toNat = 0xa0 || c.toNat = 0x1680 || (0x2000 ≤ c.toNat && c.toNat ≤ 0x200a) ||
  c.toNat = 0x2028 || c.toNat = 0x2029 || c.toNat = 0x202f || c.toNat = 0x205f ||
  c.toNat = 0x3000 || c.toNat = 0xfeff

/-- Drop a trailing run of whitespace characters. -/
def dropTrailingWs : List Char → List Char
  | [] => []
  | c :: rest =>
    let r := dropTrailingWs rest
    if r.isEmpty && isJsWs c then [] else c :: r

/-- JavaScript `String.prototype.trim` on a character list. -/
def jsTrim (cs : List Char) : List Char :=
  dropTrailingWs (cs.dropWhile isJsWs)

/-- `jsTrim` packaged on `String` (used for `report.street.trim()`). -/
def jsTrimStr (s : String) : String :=
  String.mk (jsTrim s.data)

/-- The characters removed by `n.replace(/["'׳`]/g, '')` in
`normalizeStreet`: double quote, apostrophe, Hebrew geresh and backtick. -/
def isQuoteChar (c : Char) : Bool :=
  c = '"' || c = '\'' || c = '׳' || c.toNat = 0x60

/-- Worker for `collapseWs`; the flag records whether the previous character
belonged to a whitespace run (whose single replacement space was already
emitted). -/
def collapseWsGo : Bool → List Char → List Char
  | _, [] => []
  | prevWs, c :: rest =>
    if isJsWs c then
      if prevWs then collapseWsGo true rest
      else ' ' :: collapseWsGo true rest
    else c :: collapseWsGo false rest

/-- `n.replace(/\s+/g, ' ')`: every maximal run of whitespace becomes a
single ASCII space. -/
def collapseWs (cs : List Char) : List Char :=
  collapseWsGo false cs

/-- The alternatives of the anchored prefix regex
`^(רחוב|רח['׳]?|שדרות|שד['׳]?|דרך|טיילת)\s+`, expanded in the order the
JavaScript engine tries them (a greedy optional quote first). -/
def streetWordAlts : List (List Char) :=
  [ "רחוב".data,
    "רח'".data, "רח׳".data, "רח".data,
    "שדרות".data,
    "שד'".data, "שד׳".data, "שד".data,
    "דרך".data,
    "טיילת".data ]

/-- Try one regex alternative: the literal `p` at the start of `cs` followed
by at least one whitespace character; on success the greedy `\s+` consumes
the whole run and the match is deleted. -/
def tryStripAlt (p cs : List Char) : Option (List Char) :=
  if cs.take p.length = p then
    match cs.drop p.length with
    | c :: rest => if isJsWs c then some (rest.dropWhile isJsWs) else none
    | [] => none
  else none

/-- `n.replace(/^(רחוב|רח['׳]?|שדרות|שד['׳]?|דרך|טיילת)\s+/g, '')`.
Because the pattern is anchored at `^` (and there is no `m` flag), the
global replace removes at most one leading prefix. -/
def stripStreetWord (cs : List Char) : List Char :=
  go streetWordAlts cs
where
  go : List (List Char) → List Char → List Char
    | [], cs => cs
    | p :: ps, cs =>
      match tryStripAlt p cs with
      | some rest => rest
      | none => go ps cs

/-- `normalizeStreet` from `app.js` on a (non-null) string: trim, strip one
leading street-type prefix, strip quote characters, collapse whitespace,
trim again.  The empty string is falsy in JavaScript, hence returned as is. -/
def normStr (s : String) : String :=
  if s = "" then "" else
  let n1 := jsTrim s.data
  let n2 := stripStreetWord n1
  let n3 := n2.filter (fun c => !(isQuoteChar c))
  String.mk (jsTrim (collapseWs n3))

/-- `normalizeStreet` including the JavaScript null/undefined guard
(`if (!name) return ''`). -/
def normalizeStreet (name : Option String) : String :=
  match name with
  | none => ""
  | some s => normStr s

/-! ## Association lists modelling JavaScript objects -/

/-- First-match lookup in an association list (JavaScript property read). -/
def lookupAssoc {α β : Type} [DecidableEq α] : List (α × β) → α → Option β
  | [], _ => none
  | (k, v) :: rest, key => if k = key then some v else lookupAssoc rest key

/-- JavaScript property assignment `obj[k] = v`: an existing key keeps its
position and gets the new value, a new key is appended. -/
def assocSet {α β : Type} [DecidableEq α] (key : α) (v : β) :
    List (α × β) → List (α × β)
  | [] => [(key, v)]
  | (k, w) :: rest =>
    if k = key then (key, v) :: rest else (k, w) :: assocSet key v rest

/-- First entry whose key satisfies `p`, scanning in insertion order
(`for (const key of Object.keys(obj))`). -/
def findAssocBy {α β : Type} (p : α → Bool) : List (α × β) → Option β
  | [] => none
  | (k, v) :: rest => if p k then some v else findAssocBy p rest

/-! ## The static alias table -/

/-- `STREET_ALIASES` from `app.js`, in source order. -/
def STREET_ALIASES : List (String × String) :=
  [ ("בגין מנחם", "בגין"),
    ("נמיר מרדכי", "נמיר"),
    ("לבון פנחס", "לבון"),
    ("סנה משה", "משה סנה"),
    ("קפלן אליעזר", "קפלן"),
    ("אלון יגאל", "יגאל אלון"),
    ("אלחנן יצחק", "יצחק אלחנן"),
    ("תל גבורים", "תל גיבורים"),
    ("העליה", "היינה"),
    ("הרברט סמואל", "הרברט סמואל"),
    ("המלך גורג", "המלך גורג"),
    ("גבעת התחמושת", "קפלן") ]

/-- `STREET_ALIASES[name] || name`. -/
def aliasOf (name : String) : String :=
  (lookupAssoc STREET_ALIASES name).getD name

/-! ## Data model -/

/-- A three-day-class interval table (the shape shared by `ScheduleEntry`
and a decoded override's `hours` payload).  `none` models a `null`/absent
field, `allWeek` is falsy when absent. -/
structure Hours where
  sun_thu : Option (List (ℚ × ℚ)) := none
  fri : Option (List (ℚ × ℚ)) := none
  sat : Option (List (ℚ × ℚ)) := none
  allWeek : Bool := false
deriving DecidableEq, Repr

/-- One row of `BUS_LANE_SCHEDULE`.  `eid` models JavaScript object
identity: the `Set`-based deduplication in `findSchedule` compares object
references, and distinct table rows are distinct objects even when
field-wise equal (the table contains a duplicated `קרליבך` row). `sect` is
the row's `section` text (`section` is a Lean keyword). -/
structure ScheduleEntry where
  eid : Nat
  street : String
  sect : String
  hours : Hours
deriving DecidableEq, Repr

/-- `SCHEDULE_BY_STREET`: buckets of schedule rows keyed by the raw street
string, in insertion order. -/
def ScheduleIndex : Type := List (String × List ScheduleEntry)

/-- The GIS attributes of a road-segment feature that the status engine
reads.  Absent (`null`/`undefined`) attributes are `none`. -/
structure Attributes where
  street_name : Option String := none
  from_street : Option String := none
  to_street : Option String := none
  direction_name : Option String := none
  status : Option String := none
  oid : Option Nat := none
deriving DecidableEq, Repr

/-- A GIS feature as consumed by the status engine (geometry is not read by
any of the functions embedded here). -/
structure Feature where
  attributes : Attributes
deriving DecidableEq, Repr

/-- The fields of a JavaScript `Date` that the engine reads: `getDay()`,
`getHours()`, `getMinutes()`. -/
structure JsDate where
  day : Nat
  hours : Nat
  minutes : Nat
deriving DecidableEq, Repr

/-! ## Time and day classification -/

/-- `getDayType` from `app.js`. -/
def getDayType (date : JsDate) : String :=
  if date.day ≤ 4 then "sun_thurs"
  else if date.day = 5 then "fri"
  else if date.day = 6 then "sat"
  else "sun_thurs"

/-- `getCurrentDecimalHour` from `app.js`: `hours + minutes / 60`. -/
def getCurrentDecimalHour (date : JsDate) : ℚ :=
  (date.hours : ℚ) + (date.minutes : ℚ) / 60

/-- `isInTimeRange` from `app.js`: half-open membership, with an overnight
wraparound when `startH > endH`. -/
def isInTimeRange (current startH endH : ℚ) : Bool :=
  if startH ≤ endH then
    current ≥ startH && current < endH
  else
    current ≥ startH || current < endH

/-- `HEBREW_DAYS` from `app.js`. -/
def HEBREW_DAYS : List String :=
  ["ראשון", "שני", "שלישי", "רביעי", "חמישי", "שישי", "שבת"]

/-- `HEBREW_DAYS[d]` interpolated into a template literal: an out-of-range
index reads `undefined`, which the template renders as `"undefined"`. -/
def hebrewDay (d : Nat) : String :=
  HEBREW_DAYS.getD d "undefined"

/-! ## Decimal rendering (`formatHour`) -/

/-- One decimal digit, as produced by `Number.prototype.toString`. -/
def decDigit (n : Nat) : Char :=
  if n = 0 then '0' else if n = 1 then '1' else if n = 2 then '2'
  else if n = 3 then '3' else if n = 4 then '4' else if n = 5 then '5'
  else if n = 6 then '6' else if n = 7 then '7' else if n = 8 then '8'
  else '9'

/-- Decimal digit string of a natural number, most significant first. -/
def natToDigits (n : Nat) : List Char :=
  if _h : n < 10 then [decDigit n]
  else natToDigits (n / 10) ++ [decDigit (n % 10)]
termination_by n
decreasing_by
  exact Nat.div_lt_self (by omega) (by omega)

/-- `Number.prototype.toString()` for integer values. -/
def intRepr (n : ℤ) : String :=
  if n < 0 then "-" ++ String.mk (natToDigits (-n).toNat)
  else String.mk (natToDigits n.toNat)

/-- `s.padStart(2, '0')`. -/
def padStart2 (s : String) : String :=
  if 2 ≤ s.length then s
  else String.mk (List.replicate (2 - s.length) '0') ++ s

/-- `formatHour` from `app.js` on a decimal-hour number: `Math.floor` for
the hour part, `Math.round` (half toward `+∞`, i.e. `⌊x + 1/2⌋`) for the
minute part, both zero-padded to two characters.  (The source's guard for a
`null`/`undefined` argument cannot fire in this typed model: every call
site passes a number from an interval pair.) -/
def formatHour (decimal : ℚ) : String :=
  padStart2 (intRepr ⌊decimal⌋) ++ ":" ++
    padStart2 (intRepr ⌊(decimal - (⌊decimal⌋ : ℚ)) * 60 + 1/2⌋)

/-- `Array.prototype.join(', ')`. -/
def joinComma : List String → String
  | [] => ""
  | [s] => s
  | s :: rest => s ++ ", " ++ joinComma rest

/-- The `ranges.map(r => ...).join(', ')` text used in "open now" reasons. -/
def rangeListStr (rs : List (ℚ × ℚ)) : String :=
  joinComma (rs.map (fun r => formatHour r.1 ++ "-" ++ formatHour r.2))

/-- The `for (const [start, end] of ranges)` loop body of `getLaneStatus`:
first interval containing the current hour, if any. -/
def findFirstRange (h : ℚ) : List (ℚ × ℚ) → Option (ℚ × ℚ)
  | [] => none
  | (s, e) :: rest =>
    if isInTimeRange h s e then some (s, e) else findFirstRange h rest

/-! ## Schedule matching (`matchScore`, `findSchedule`) -/

/-- `needle` starts the list `hay`. -/
def listStartsWith : List Char → List Char → Bool
  | [], _ => true
  | _ :: _, [] => false
  | a :: as, b :: bs => a = b && listStartsWith as bs

/-- `needle` occurs contiguously inside `hay`: it starts `hay` or occurs in
its tail. -/
def occursIn (needle : List Char) : List Char → Bool
  | [] => needle.isEmpty
  | c :: t => listStartsWith needle (c :: t) || occursIn needle t

/-- `a.includes(b)`: `b` occurs as a contiguous substring of `a`. -/
def containsSub (a b : String) : Bool :=
  occursIn b.data a.data

/-- `matchScore` from `app.js`: how well a schedule row matches a GIS
feature.  Returns `0` for no match; a name match scores `1` (or `0.3` for a
substring-only match), plus `3` for each of the from/to junction names
found in the row's section text, plus `2` for a direction cue, capped at
`0.5` for the generic `default` section. -/
def matchScore (entry : ScheduleEntry) (feature : Feature) : ℚ :=
  let attrs := feature.attributes
  let featureStreet := normalizeStreet attrs.street_name
  let entryStreet := normStr entry.street
  if featureStreet = "" || entryStreet = "" then 0 else
  let aliased := aliasOf featureStreet
  let nameMatch := featureStreet = entryStreet || aliased = entryStreet
  let looseMatch := !nameMatch &&
    (containsSub entryStreet featureStreet || containsSub featureStreet entryStreet)
  if !nameMatch && !looseMatch then 0 else
  let base : ℚ := if nameMatch then 1 else 3/10
  let sect := entry.sect
  let fromStreet := normalizeStreet attrs.from_street
  let toStreet := normalizeStreet attrs.to_street
  let direction := attrs.direction_name.getD ""
  let s1 := base + (if fromStreet ≠ "" ∧ containsSub sect fromStreet then 3 else 0)
  let s2 := s1 + (if toStreet ≠ "" ∧ containsSub sect toStreet then 3 else 0)
  let s3 := s2 + (if direction = "N" ∧ (containsSub sect "לצפון" ∨ containsSub sect "צפונה") then 2 else 0)
  let s4 := s3 + (if direction = "S" ∧ (containsSub sect "לדרום" ∨ containsSub sect "דרומה") then 2 else 0)
  let s5 := s4 + (if direction = "E" ∧ (containsSub sect "למזרח" ∨ containsSub sect "מזרחה") then 2 else 0)
  let s6 := s5 + (if direction = "W" ∧ (containsSub sect "למערב" ∨ containsSub sect "מערבה") then 2 else 0)
  if sect = "default" then min s6 (1/2) else s6

/-- Reference-identity deduplication (`[...new Set(candidates)]`): keep the
first occurrence of every entry, in order. -/
def dedupKeepFirst : List ScheduleEntry → List ScheduleEntry :=
  go []
where
  go (seen : List ScheduleEntry) : List ScheduleEntry → List ScheduleEntry
    | [] => []
    | e :: rest =>
      if e ∈ seen then go seen rest else e :: go (e :: seen) rest

/-- The candidate-collection phase of `findSchedule`: for every index key
(in insertion order) and every name variant (the normalized street, then
its alias when different), append the key's bucket whenever the normalized
key equals, contains, or is contained in the variant; then deduplicate.
Empty when the feature's normalized street name is empty (in which case
`findSchedule` returns `null` before collecting). -/
def scheduleCandidates (idx : ScheduleIndex) (feature : Feature) :
    List ScheduleEntry :=
  let rawStreet := normalizeStreet feature.attributes.street_name
  if rawStreet = "" then [] else
  let aliased := aliasOf rawStreet
  let variants := if aliased = rawStreet then [rawStreet] else [rawStreet, aliased]
  dedupKeepFirst <| idx.foldl (fun acc kb =>
    let normKey := normStr kb.1
    variants.foldl (fun a v =>
      if normKey = v || containsSub normKey v || containsSub v normKey
      then a ++ kb.2 else a) acc) []

/-- The scoring loop of `findSchedule`: fold over the candidates carrying
`(best, bestScore)`, starting from `(null, 0)`, replacing the pair only on
a strict improvement. -/
def bestLoop (feature : Feature) :
    List ScheduleEntry → Option ScheduleEntry × ℚ → Option ScheduleEntry × ℚ
  | [], acc => acc
  | e :: rest, acc =>
    let s := matchScore e feature
    bestLoop feature rest (if s > acc.2 then (some e, s) else acc)

/-- `findSchedule` from `app.js`: collect candidates, return `null` on an
empty street name or no candidates, skip scoring for a single candidate,
otherwise score and return the best, falling back to the first candidate
(`best || candidates[0]`) when no candidate scored above zero.  (The
`typeof SCHEDULE_BY_STREET === 'undefined'` guard is dropped: the index is
an explicit argument here.) -/
def findSchedule (idx : ScheduleIndex) (feature : Feature) :
    Option ScheduleEntry :=
  match scheduleCandidates idx feature with
  | [] => none
  | [c] => some c
  | c :: d :: rest => some ((bestLoop feature (c :: d :: rest) (none, 0)).1.getD c)

/-! ## Community reports and sign overrides (`community_reports.js`) -/

/-- A community sign report.  `timestamp` is the submission instant in
epoch milliseconds (the source stores an ISO string and compares reports
via `new Date(a.timestamp) - new Date(b.timestamp)`). -/
structure Report where
  rid : String
  street : Option String := none
  timestamp : ℤ
  status : String
  decodedHours : Option Hours := none
  featureIds : Option (List Nat) := none
deriving DecidableEq, Repr

/-- The override record built by `rebuildSignOverrides` for one decoded
report (the `override` object literal in the source). -/
structure Override where
  report : Report
  hours : Hours
  street : Option String
  timestamp : ℤ
  featureIds : Option (List Nat)
deriving DecidableEq, Repr

/-- The override object built from a decoded report.  Its `hours` field is
the report's decoded payload (always present on the reports the rebuild
keeps). -/
def mkOverride (r : Report) : Override :=
  { report := r
    hours := r.decodedHours.getD {}
    street := r.street
    timestamp := r.timestamp
    featureIds := r.featureIds }

/-- The two override maps (`SIGN_OVERRIDES` keyed by street,
`SIGN_OVERRIDES_BY_OID` keyed by feature oid). -/
structure OverrideState where
  byStreet : List (String × Override) := []
  byOid : List (Nat × Override) := []

/-- `report.street ? report.street.trim() : ''`. -/
def streetKeyOf (r : Report) : String :=
  match r.street with
  | none => ""
  | some s => if s = "" then "" else jsTrimStr s

/-- `report.featureIds && report.featureIds.length > 0`. -/
def featureIdsNonempty (r : Report) : Bool :=
  match r.featureIds with
  | none => false
  | some ids => ids.length > 0

/-- One iteration of the rebuild loop: skip a report with an empty street
key, key by each feature oid when explicit ids are present, otherwise key
by the trimmed street name (legacy format). -/
def rebuildStep (st : OverrideState) (r : Report) : OverrideState :=
  let key := streetKeyOf r
  if key = "" then st else
  let ovr := mkOverride r
  if featureIdsNonempty r then
    { st with byOid := (r.featureIds.getD []).foldl (fun m oid => assocSet oid ovr m) st.byOid }
  else
    { st with byStreet := assocSet key ovr st.byStreet }

/-- Insert a report into a timestamp-sorted list, before the first report
with a later-or-equal timestamp (used below to build a stable ascending
sort, matching the stable `Array.prototype.sort`). -/
def insertByTs (r : Report) : List Report → List Report
  | [] => [r]
  | x :: xs => if r.timestamp ≤ x.timestamp then r :: x :: xs else x :: insertByTs r xs

/-- Stable ascending sort by timestamp. -/
def sortByTs (l : List Report) : List Report :=
  l.foldr insertByTs []

/-- The `decoded` list of `rebuildSignOverrides`: reports with status
`decoded` and a decoded-hours payload, sorted ascending by submission
timestamp. -/
def decodedReports (reports : List Report) : List Report :=
  sortByTs (reports.filter (fun r => r.status = "decoded" && r.decodedHours.isSome))

/-- `rebuildSignOverrides` from `community_reports.js`: fold the sorted
decoded reports into the two maps, later submissions overwriting earlier
ones for the same key. -/
def rebuildSignOverrides (reports : List Report) : OverrideState :=
  (decodedReports reports).foldl rebuildStep {}

/-- The street-map write that one rebuild iteration for report `r`
performs at key `k`, as a partial function (used to state the
last-write-wins characterization): `some` of the built override exactly
when `r` carries a non-empty trimmed street equal to `k` and no explicit
feature-id list. -/
def streetWriteOf (r : Report) (k : String) : Option Override :=
  if streetKeyOf r = k ∧ streetKeyOf r ≠ "" ∧ featureIdsNonempty r = false
  then some (mkOverride r) else none

/-- The oid-map write that one rebuild iteration for report `r` performs
at oid `o`: `some` of the built override exactly when `r` carries a
non-empty trimmed street and an explicit feature-id list containing `o`. -/
def oidWriteOf (r : Report) (o : Nat) : Option Override :=
  if streetKeyOf r ≠ "" ∧ featureIdsNonempty r = true ∧ o ∈ r.featureIds.getD []
  then some (mkOverride r) else none

/-- The street-keyed fallback search of `getSignOverride`: the raw street
as a direct key, then a scan for a normalized-equal key, then a scan for a
key normalizing to the street's alias. -/
def getStreetOverride (st : OverrideState) (street : Option String) : Option Override :=
  match street with
  | none => none
  | some s =>
    if s = "" then none else
    match lookupAssoc st.byStreet s with
    | some o => some o
    | none =>
      let norm := normStr s
      match findAssocBy (fun k => normStr k = norm) st.byStreet with
      | some o => some o
      | none =>
        let aliased := aliasOf norm
        findAssocBy (fun k => normStr k = aliased) st.byStreet

/-- `getSignOverride` from `community_reports.js`: a segment-specific
override by feature oid first, then the legacy street-name lookup. -/
def getSignOverride (st : OverrideState) (feature : Feature) : Option Override :=
  let byOidHit :=
    match feature.attributes.oid with
    | some oid => lookupAssoc st.byOid oid
    | none => none
  match byOidHit with
  | some o => some o
  | none => getStreetOverride st feature.attributes.street_name

/-! ## Lane status (`getLaneStatus`) -/

/-- The result record of `getLaneStatus`.  The JavaScript `schedule` field
holds either a schedule row (static path) or an override's hours payload
(override path); the sum type records which. -/
structure LaneStatus where
  blocked : Bool
  reason : String
  category : String
  schedule : Option (ScheduleEntry ⊕ Hours)
  signOverride : Option Override
deriving DecidableEq

/-- `status && status !== 'פעיל'`: the segment carries a truthy (non-empty)
status attribute different from the active sentinel. -/
def laneInactive (feature : Feature) : Bool :=
  match feature.attributes.status with
  | some s => s ≠ "" && s ≠ "פעיל"
  | none => false

/-- Pick the interval list of the current day type (the
`if/else if` chain assigning `ranges`). -/
def rangesFor (h : Hours) (dayType : String) : Option (List (ℚ × ℚ)) :=
  if dayType = "sun_thurs" then h.sun_thu
  else if dayType = "fri" then h.fri
  else if dayType = "sat" then h.sat
  else none

/-- `!ranges || ranges.length === 0`. -/
def rangesEmpty (r : Option (List (ℚ × ℚ))) : Bool :=
  match r with
  | none => true
  | some l => l.isEmpty

/-- `getLaneStatus` from `app.js`: inactive-segment check first, then the
community sign override (evaluated with sign-sourced 🪧 reasons), then the
static schedule via `findSchedule`, with `unknown` when nothing matches. -/
def getLaneStatus (ost : OverrideState) (idx : ScheduleIndex)
    (feature : Feature) (now : JsDate) : LaneStatus :=
  let dayType := getDayType now
  let currentHr := getCurrentDecimalHour now
  if laneInactive feature then
    { blocked := false, reason := "נתצ לא פעיל", category := "open",
      schedule := none, signOverride := none }
  else
    match getSignOverride ost feature with
    | some signOvr =>
      let ovr := signOvr.hours
      if ovr.allWeek then
        { blocked := true, reason := "נתצ קבוע – חסום תמיד (24/7) 🪧",
          category := "blocked", schedule := some (Sum.inr ovr),
          signOverride := some signOvr }
      else
        let ranges := rangesFor ovr dayType
        if rangesEmpty ranges then
          { blocked := false,
            reason := "אין הגבלה ביום " ++ hebrewDay now.day ++ " 🪧",
            category := "open", schedule := some (Sum.inr ovr),
            signOverride := some signOvr }
        else
          let rs := ranges.getD []
          match findFirstRange currentHr rs with
          | some (s, e) =>
            { blocked := true,
              reason := "חסום כעת: " ++ formatHour s ++ " - " ++ formatHour e ++ " 🪧",
              category := "blocked", schedule := some (Sum.inr ovr),
              signOverride := some signOvr }
          | none =>
            { blocked := false,
              reason := "פתוח כעת (הגבלה: " ++ rangeListStr rs ++ ") 🪧",
              category := "open", schedule := some (Sum.inr ovr),
              signOverride := some signOvr }
    | none =>
      match findSchedule idx feature with
      | none =>
        { blocked := true, reason := "לא נמצא מידע על שעות – ייתכן שחסום",
          category := "unknown", schedule := none, signOverride := none }
      | some schedule =>
        if schedule.hours.allWeek then
          { blocked := true, reason := "נתצ קבוע – חסום תמיד (24/7)",
            category := "blocked", schedule := some (Sum.inl schedule),
            signOverride := none }
        else
          let ranges := rangesFor schedule.hours dayType
          if rangesEmpty ranges then
            { blocked := false,
              reason := "אין הגבלה ביום " ++ hebrewDay now.day,
              category := "open", schedule := some (Sum.inl schedule),
              signOverride := none }
          else
            let rs := ranges.getD []
            match findFirstRange currentHr rs with
            | some (s, e) =>
              { blocked := true,
                reason := "חסום כעת: " ++ formatHour s ++ " - " ++ formatHour e,
                category := "blocked", schedule := some (Sum.inl schedule),
                signOverride := none }
            | none =>
              { blocked := false,
                reason := "פתוח כעת (הגבלה: " ++ rangeListStr rs ++ ")",
                category := "open", schedule := some (Sum.inl schedule),
                signOverride := none }

/-! ## Camera-to-segment assignment (`buildCameraSegmentIndex`) -/

/-- One `{ feature, dist }` element of the `nearby` array.  The distance is
the value `distanceToPolyline(camPos, f.geometry.paths)` computed by the
floating-point geographic primitives, supplied here as data. -/
structure CamCand where
  feature : Feature
  dist : ℚ
deriving DecidableEq

/-- Insert into a distance-sorted list, before the first strictly-greater
element seen from the left (stable, like `Array.prototype.sort`). -/
def insertByDist (c : CamCand) : List CamCand → List CamCand
  | [] => [c]
  | x :: xs => if c.dist ≤ x.dist then c :: x :: xs else x :: insertByDist c xs

/-- `nearby.sort((a, b) => a.dist - b.dist)`: stable ascending sort. -/
def sortByDist (l : List CamCand) : List CamCand :=
  l.foldr insertByDist []

/-- `f.attributes.direction_name || 'none'`. -/
def dirOf (f : Feature) : String :=
  match f.attributes.direction_name with
  | some d => if d = "" then "none" else d
  | none => "none"

/-- First-occurrence deduplication of strings (`Object.keys` of the
direction-grouping object, in insertion order). -/
def dedupStr : List String → List String :=
  go []
where
  go (seen : List String) : List String → List String
    | [] => []
    | s :: rest =>
      if s ∈ seen then go seen rest else s :: go (s :: seen) rest

/-- The distinct non-`'none'` direction names among the nearby candidates
(`Object.keys(dirGroups).filter(d => d !== 'none')`). -/
def distinctDirs (nearby : List CamCand) : List String :=
  (dedupStr (nearby.map (fun n => dirOf n.feature))).filter (fun d => d ≠ "none")

/-- The three ascending compass directions of the Tel Aviv house-number
parity convention. -/
def ascendingDirs : List String := ["N", "NE", "E"]

/-- The per-camera assignment step of `buildCameraSegmentIndex`
(`app.js` lines 951–1047): filter the candidate segments to the 60-unit
snap radius, sort ascending by distance, and resolve directional ambiguity
using the house number when present, or by pairing the two nearest
opposing-direction segments when they lie within 10 units of each other.
`houseNum` is `parseInt(a.ms_bayit1)` (`none` models a missing attribute,
whose parse is `NaN` and fails the `> 0` test).  Returns the
`{ segments, bidirectional }` record, or `none` when the camera is left
unassigned. -/
def assignCamera (cands : List CamCand) (houseNum : Option ℤ) :
    Option (List Feature × Bool) :=
  let nearby := sortByDist (cands.filter (fun c => c.dist < 60))
  match nearby with
  | [] => none
  | n0 :: rest =>
    let dirs := distinctDirs (n0 :: rest)
    if rest.isEmpty || dirs.length ≤ 1 then
      some ([n0.feature], false)
    else if 2 ≤ dirs.length then
      let hnPos : Bool := match houseNum with
        | some n => 0 < n
        | none => false
      if hnPos then
        let seg1 := n0
        match (n0 :: rest).find? (fun n => dirOf n.feature ≠ dirOf seg1.feature) with
        | some seg2 =>
          if |seg1.dist - seg2.dist| < 3 then
            let isEven := (houseNum.getD 0) % 2 = 0
            let dir1 := seg1.feature.attributes.direction_name.getD ""
            let isDir1Ascending := dir1 ∈ ascendingDirs
            if isEven = isDir1Ascending then some ([seg1.feature], false)
            else some ([seg2.feature], false)
          else
            some ([seg1.feature], false)
        | none => some ([seg1.feature], false)
      else
        let seg1 := n0
        match (n0 :: rest).find? (fun n => dirOf n.feature ≠ dirOf seg1.feature) with
        | some seg2 =>
          if |seg1.dist - seg2.dist| < 10 then
            some ([seg1.feature, seg2.feature], true)
          else
            some ([seg1.feature], false)
        | none => some ([seg1.feature], false)
    else none

/-! ## GPS low-pass filter (`updateFilteredSpeedAndBearing`) -/

/-- `GPS_LP_ALPHA` from `app.js`. -/
def GPS_LP_ALPHA : ℚ := 35/100

/-- `GPS_MIN_SPEED_FOR_HEADING` from `app.js` (m/s). -/
def GPS_MIN_SPEED_FOR_HEADING : ℚ := 3/2

/-- `GPS_MIN_MOVE_METERS` from `app.js`. -/
def GPS_MIN_MOVE_METERS : ℚ := 3

/-- Truncation toward zero, as in the JavaScript `%` operator. -/
def jsTruncDiv (a b : ℚ) : ℤ :=
  if 0 ≤ a / b then ⌊a / b⌋ else ⌈a / b⌉

/-- The JavaScript remainder operator `a % b` (sign of the dividend). -/
def jsMod (a b : ℚ) : ℚ :=
  a - b * (jsTruncDiv a b : ℚ)

/-- The mutable filter registers of the GPS low-pass filter.
`prevFiltered` bundles `prevFilteredLat`/`prevFilteredLng`, which the
source always sets and clears together. -/
structure GpsState where
  filteredSpeed : ℚ
  filteredBearing : Option ℚ
  lastFilteredTime : ℚ
  prevFiltered : Option (ℚ × ℚ)
deriving DecidableEq

/-- `updateFilteredSpeedAndBearing` from `app.js`.  `distFn` and `bearFn`
stand for the floating-point geographic primitives
`L.latLng(a).distanceTo(b)` and `bearingBetween` (taking previous lat,
previous lng, current lat, current lng); the filter's control flow never
depends on anything about them beyond the returned values, so they are
parameters of the embedding. -/
def updateFilteredSpeedAndBearing
    (distFn bearFn : ℚ → ℚ → ℚ → ℚ → ℚ)
    (st : GpsState) (lat lng now : ℚ) : GpsState :=
  match st.prevFiltered with
  | none =>
    { st with prevFiltered := some (lat, lng), lastFilteredTime := now }
  | some (plat, plng) =>
    let dtSec := (now - st.lastFilteredTime) / 1000
    if dtSec ≤ 0 then st
    else
      let dist := distFn plat plng lat lng
      if dist < GPS_MIN_MOVE_METERS then
        { st with lastFilteredTime := now }
      else
        let instantSpeed := dist / dtSec
        let fs :=
          if st.filteredSpeed = 0 then instantSpeed
          else st.filteredSpeed + GPS_LP_ALPHA * (instantSpeed - st.filteredSpeed)
        let fb :=
          if fs ≥ GPS_MIN_SPEED_FOR_HEADING then
            let rawBearing := bearFn plat plng lat lng
            match st.filteredBearing with
            | none => some rawBearing
            | some b =>
              let d1 := rawBearing - b
              let d2 := if d1 > 180 then d1 - 360 else d1
              let d3 := if d2 < -180 then d2 + 360 else d2
              some (jsMod (b + GPS_LP_ALPHA * d3 + 360) 360)
          else st.filteredBearing
        { filteredSpeed := fs, filteredBearing := fb,
          lastFilteredTime := now, prevFiltered := some (lat, lng) }

/-! ## Theorems settling the claims -/

/-- C1 (counterexample): the claim admits the degenerate interval
`[5, 5]` (it only requires `start ≤ end`), and asserts that a query at
exactly `start` is blocked; but the half-open test reports the empty
interval `[5, 5)` as open at hour 5. -/
theorem isInTimeRange_start_open_cex :
    (5 : ℚ) ≤ 5 ∧ isInTimeRange 5 5 5 = false := by
  refine ⟨le_refl 5, ?_⟩
  norm_num [isInTimeRange]

/-- C1 (amended): for `start ≤ end` the test reports blocked exactly when
`start ≤ h < end`; the boundary behaviour "blocked at exactly `start`,
open at exactly `end`" holds for every non-degenerate interval
(`start < end`); for `start > end` the interval wraps overnight and the
test reports blocked exactly when `h ≥ start` or `h < end`; in the
overnight interval `[22, 6)`, hours 23 and 2 are blocked and hour 10 is
open. -/
theorem isInTimeRange_spec (startH endH h : ℚ) :
    (startH ≤ endH → (isInTimeRange h startH endH = true ↔ startH ≤ h ∧ h < endH)) ∧
    (startH < endH →
      isInTimeRange startH startH endH = true ∧ isInTimeRange endH startH endH = false) ∧
    (endH < startH → (isInTimeRange h startH endH = true ↔ startH ≤ h ∨ h < endH)) ∧
    (isInTimeRange 23 22 6 = true ∧ isInTimeRange 2 22 6 = true ∧
      isInTimeRange 10 22 6 = false) := by
  refine ⟨?_, ?_, ?_, by norm_num [isInTimeRange]⟩
  · intro hle
    simp [isInTimeRange, if_pos hle, ge_iff_le, and_comm]
  · intro hlt
    constructor
    · simp [isInTimeRange, if_pos hlt.le, hlt]
    · simp [isInTimeRange, if_pos hlt.le]
  · intro hlt
    simp [isInTimeRange, if_neg (not_le.mpr hlt), ge_iff_le]

/-- C1 (witness): the amended theorem applied to the interval `[7, 22]` at
hour 9 and to the overnight interval `[22, 6]` at hour 23. -/
theorem isInTimeRange_spec_witness :
    (isInTimeRange 9 7 22 = true ↔ (7 : ℚ) ≤ 9 ∧ (9 : ℚ) < 22) ∧
    isInTimeRange 7 7 22 = true ∧ isInTimeRange 22 7 22 = false ∧
    (isInTimeRange 23 22 6 = true ↔ (22 : ℚ) ≤ 23 ∨ (23 : ℚ) < 6) := by
  refine ⟨(isInTimeRange_spec 7 22 9).1 (by norm_num),
          ((isInTimeRange_spec 7 22 9).2.1 (by norm_num)).1,
          ((isInTimeRange_spec 7 22 9).2.1 (by norm_num)).2,
          (isInTimeRange_spec 22 6 23).2.2.1 (by norm_num)⟩

/-- C2: a segment that is not flagged inactive, has no decoded override and
whose street name yields zero schedule candidates gets category `unknown`
with `blocked = true` and a non-empty reason string, and `getLaneStatus`
returns this record normally (the embedding is a total function: no
exception path exists). -/
theorem getLaneStatus_no_match (ost : OverrideState) (idx : ScheduleIndex)
    (f : Feature) (now : JsDate)
    (hact : laneInactive f = false)
    (hovr : getSignOverride ost f = none)
    (hcand : scheduleCandidates idx f = []) :
    getLaneStatus ost idx f now =
      { blocked := true, reason := "לא נמצא מידע על שעות – ייתכן שחסום",
        category := "unknown", schedule := none, signOverride := none } ∧
    (getLaneStatus ost idx f now).reason ≠ "" := by
  have hfs : findSchedule idx f = none := by
    unfold findSchedule
    rw [hcand]
  have : getLaneStatus ost idx f now =
      { blocked := true, reason := "לא נמצא מידע על שעות – ייתכן שחסום",
        category := "unknown", schedule := none, signOverride := none } := by
    unfold getLaneStatus
    rw [hact, hovr, hfs]
    simp
  exact ⟨this, by rw [this]; decide⟩

/-- C2 (witness): a feature with no attributes at all, against the empty
index and empty override state. -/
theorem getLaneStatus_no_match_witness :
    getLaneStatus {} [] ⟨{}⟩ ⟨0, 10, 0⟩ =
      { blocked := true, reason := "לא נמצא מידע על שעות – ייתכן שחסום",
        category := "unknown", schedule := none, signOverride := none } :=
  (getLaneStatus_no_match {} [] ⟨{}⟩ ⟨0, 10, 0⟩ rfl rfl rfl).1

/-- C3: a segment whose `status` attribute carries a truthy value different
from the active sentinel `פעיל` is reported `open` with `blocked = false`
at every timestamp, for every override state and schedule index — the
check precedes the override lookup and the schedule matcher.  ("Present"
is JavaScript truthiness: the guard is `status && status !== 'פעיל'`, so
an empty-string status counts as absent.) -/
theorem getLaneStatus_inactive (ost : OverrideState) (idx : ScheduleIndex)
    (f : Feature) (now : JsDate) (s : String)
    (h1 : f.attributes.status = some s) (h2 : s ≠ "") (h3 : s ≠ "פעיל") :
    getLaneStatus ost idx f now =
      { blocked := false, reason := "נתצ לא פעיל", category := "open",
        schedule := none, signOverride := none } := by
  have hact : laneInactive f = true := by
    unfold laneInactive
    rw [h1]
    simp [h2, h3]
  unfold getLaneStatus
  rw [hact]
  simp

/-- C3 (witness): a segment under construction (`בהקמה`) is open even
though a 24/7 override targets its oid and hour 10 on a Sunday falls
inside a matching static entry. -/
theorem getLaneStatus_inactive_witness :
    getLaneStatus
      ⟨[], [(4, mkOverride { rid := "w", street := some "הרצל", timestamp := 5,
                             status := "decoded",
                             decodedHours := some { allWeek := true } })]⟩
      [("הרצל", [⟨0, "הרצל", "default", { sun_thu := some [(7, 22)] }⟩])]
      ⟨{ street_name := some "הרצל", status := some "בהקמה", oid := some 4 }⟩
      ⟨0, 10, 0⟩ =
      { blocked := false, reason := "נתצ לא פעיל", category := "open",
        schedule := none, signOverride := none } :=
  getLaneStatus_inactive _ _ _ _ "בהקמה" rfl (by decide) (by decide)

/-- C10: every status returned by `getLaneStatus` has category `blocked`,
`open` or `unknown`, and its `blocked` flag is set exactly when the
category is `blocked` or `unknown` (so `unknown` is always presented as
blocked). -/
theorem getLaneStatus_category_invariant (ost : OverrideState)
    (idx : ScheduleIndex) (f : Feature) (now : JsDate) :
    ((getLaneStatus ost idx f now).category = "blocked" ∨
     (getLaneStatus ost idx f now).category = "open" ∨
     (getLaneStatus ost idx f now).category = "unknown") ∧
    ((getLaneStatus ost idx f now).blocked = true ↔
      ((getLaneStatus ost idx f now).category = "blocked" ∨
       (getLaneStatus ost idx f now).category = "unknown")) := by
  unfold getLaneStatus
  by_cases hA : laneInactive f = true
  · simp [hA]
  · simp only [hA, Bool.false_eq_true, if_false]
    cases hB : getSignOverride ost f with
    | some o =>
      by_cases hW : o.hours.allWeek = true
      · simp [hW]
      · simp only [hW, Bool.false_eq_true, if_false]
        by_cases hE : rangesEmpty (rangesFor o.hours (getDayType now)) = true
        · simp [hE]
        · simp only [hE, Bool.false_eq_true, if_false]
          cases hR : findFirstRange (getCurrentDecimalHour now)
              ((rangesFor o.hours (getDayType now)).getD []) with
          | some p => simp [hR]
          | none => simp [hR]
    | none =>
      cases hC : findSchedule idx f with
      | some sch =>
        by_cases hW : sch.hours.allWeek = true
        · simp [hW]
        · simp only [hW, Bool.false_eq_true, if_false]
          by_cases hE : rangesEmpty (rangesFor sch.hours (getDayType now)) = true
          · simp [hE]
          · simp only [hE, Bool.false_eq_true, if_false]
            cases hR : findFirstRange (getCurrentDecimalHour now)
                ((rangesFor sch.hours (getDayType now)).getD []) with
            | some p => simp [hR]
            | none => simp [hR]
      | none => simp

/-- Every decimal digit character is ASCII. -/
theorem decDigit_lt128 (n : ℕ) : (decDigit n).toNat < 128 := by
  unfold decDigit
  split_ifs <;> decide

/-- Every character of a decimal digit string is ASCII. -/
theorem natToDigits_lt128 (n : ℕ) : ∀ c ∈ natToDigits n, c.toNat < 128 := by
  induction n using Nat.strong_induction_on with
  | _ n ih =>
    rw [natToDigits]
    split
    · intro c hc
      rw [List.mem_singleton] at hc
      subst hc
      exact decDigit_lt128 n
    · intro c hc
      rw [List.mem_append] at hc
      rcases hc with h | h
      · exact ih (n / 10) (Nat.div_lt_self (by omega) (by omega)) c h
      · rw [List.mem_singleton] at h
        subst h
        exact decDigit_lt128 (n % 10)

/-- Integer decimal renderings are ASCII. -/
theorem intRepr_lt128 (n : ℤ) : ∀ c ∈ (intRepr n).data, c.toNat < 128 := by
  unfold intRepr
  split
  · intro c hc
    rw [String.data_append, List.mem_append] at hc
    rcases hc with h | h
    · rw [show ("-" : String).data = ['-'] from rfl, List.mem_singleton] at h
      subst h
      decide
    · exact natToDigits_lt128 _ c h
  · intro c hc
    exact natToDigits_lt128 _ c hc

/-- Zero padding preserves ASCII-ness. -/
theorem padStart2_lt128 (s : String) (hs : ∀ c ∈ s.data, c.toNat < 128) :
    ∀ c ∈ (padStart2 s).data, c.toNat < 128 := by
  unfold padStart2
  split
  · exact hs
  · intro c hc
    rw [String.data_append, List.mem_append] at hc
    rcases hc with h | h
    · have := List.eq_of_mem_replicate h
      subst this
      decide
    · exact hs c h

/-- The 🪧 marker character never occurs in `formatHour` output. -/
theorem formatHour_no_marker (q : ℚ) : '🪧' ∉ (formatHour q).data := by
  intro hmem
  unfold formatHour at hmem
  rw [String.data_append, String.data_append, List.mem_append, List.mem_append] at hmem
  rcases hmem with (h | h) | h
  · exact absurd (padStart2_lt128 _ (intRepr_lt128 _) _ h) (by decide)
  · rw [show (":" : String).data = [':'] from rfl, List.mem_singleton] at h
    exact absurd h (by decide)
  · exact absurd (padStart2_lt128 _ (intRepr_lt128 _) _ h) (by decide)

/-- The marker never occurs in a comma join of marker-free strings. -/
theorem joinComma_no_marker (l : List String) (h : ∀ s ∈ l, '🪧' ∉ s.data) :
    '🪧' ∉ (joinComma l).data := by
  induction l with
  | nil => decide
  | cons s rest ih =>
    cases rest with
    | nil => exact h s (List.mem_singleton_self s)
    | cons t ts =>
      intro hmem
      have hj : joinComma (s :: t :: ts) = s ++ ", " ++ joinComma (t :: ts) := rfl
      rw [hj, String.data_append, String.data_append, List.mem_append,
        List.mem_append] at hmem
      rcases hmem with (h1 | h1) | h1
      · exact h s (List.mem_cons_self _ _) h1
      · exact absurd h1 (by decide)
      · exact ih (fun u hu => h u (List.mem_cons_of_mem _ hu)) h1

/-- The marker never occurs in the formatted range list of an "open now"
reason. -/
theorem rangeListStr_no_marker (rs : List (ℚ × ℚ)) :
    '🪧' ∉ (rangeListStr rs).data := by
  unfold rangeListStr
  refine joinComma_no_marker _ ?_
  intro s hs
  rw [List.mem_map] at hs
  obtain ⟨r, _, rfl⟩ := hs
  intro hmem
  rw [String.data_append, String.data_append, List.mem_append, List.mem_append] at hmem
  rcases hmem with (h | h) | h
  · exact formatHour_no_marker _ h
  · exact absurd h (by decide)
  · exact formatHour_no_marker _ h

/-- The marker never occurs in a Hebrew day name (nor in the out-of-range
rendering `"undefined"`). -/
theorem hebrewDay_no_marker (d : ℕ) : '🪧' ∉ (hebrewDay d).data := by
  unfold hebrewDay
  match d with
  | 0 => decide
  | 1 => decide
  | 2 => decide
  | 3 => decide
  | 4 => decide
  | 5 => decide
  | 6 => decide
  | n + 7 =>
    rw [List.getD_eq_default _ _ (by simp [HEBREW_DAYS])]
    decide

/-- Appending a marker-carrying suffix puts the marker in the result. -/
theorem marker_mem_append (s t : String) (h : '🪧' ∈ t.data) :
    '🪧' ∈ (s ++ t).data := by
  rw [String.data_append]
  exact List.mem_append_right _ h

/-- A concatenation of marker-free strings is marker-free. -/
theorem no_marker_append (s t : String) (hs : '🪧' ∉ s.data)
    (ht : '🪧' ∉ t.data) : '🪧' ∉ (s ++ t).data := by
  rw [String.data_append]
  intro hmem
  rcases List.mem_append.mp hmem with h | h
  · exact hs h
  · exact ht h

/-- C4: for a segment that is not flagged inactive and has a decoded
community override, `getLaneStatus` evaluates the override's interval
lists instead of the static entry's (the result does not depend on the
schedule index at all, and the returned `schedule`/`signOverride` fields
are the override's hours payload and the override itself); the reason
string carries the sign-sourced 🪧 marker, while no reason produced
without an override ever contains the marker; and override resolution in
`getSignOverride` consults the map keyed by segment oid before the maps
keyed by street name. -/
theorem getLaneStatus_override_priority (ost : OverrideState) (f : Feature)
    (now : JsDate) :
    (∀ sOvr (idx1 idx2 : ScheduleIndex), laneInactive f = false →
      getSignOverride ost f = some sOvr →
      getLaneStatus ost idx1 f now = getLaneStatus ost idx2 f now) ∧
    (∀ sOvr (idx : ScheduleIndex), laneInactive f = false →
      getSignOverride ost f = some sOvr →
      (getLaneStatus ost idx f now).schedule = some (Sum.inr sOvr.hours) ∧
      (getLaneStatus ost idx f now).signOverride = some sOvr ∧
      '🪧' ∈ (getLaneStatus ost idx f now).reason.data) ∧
    (∀ idx : ScheduleIndex, getSignOverride ost f = none →
      '🪧' ∉ (getLaneStatus ost idx f now).reason.data) ∧
    (∀ oid ovr, f.attributes.oid = some oid →
      lookupAssoc ost.byOid oid = some ovr →
      getSignOverride ost f = some ovr) := by
  refine ⟨?_, ?_, ?_, ?_⟩
  · intro sOvr idx1 idx2 hA hB
    unfold getLaneStatus
    simp only [hA, Bool.false_eq_true, if_false, hB]
  · intro sOvr idx hA hB
    unfold getLaneStatus
    simp only [hA, Bool.false_eq_true, if_false, hB]
    by_cases hW : sOvr.hours.allWeek = true
    · simp only [hW, if_true]
      exact ⟨by trivial, by trivial, by decide⟩
    · simp only [hW, Bool.false_eq_true, if_false]
      by_cases hE : rangesEmpty (rangesFor sOvr.hours (getDayType now)) = true
      · simp only [hE, if_true]
        exact ⟨by trivial, by trivial, marker_mem_append _ _ (by decide)⟩
      · simp only [hE, Bool.false_eq_true, if_false]
        cases hR : findFirstRange (getCurrentDecimalHour now)
            ((rangesFor sOvr.hours (getDayType now)).getD []) with
        | some p =>
          obtain ⟨s, e⟩ := p
          simp only [hR]
          exact ⟨by trivial, by trivial, marker_mem_append _ _ (by decide)⟩
        | none =>
          simp only [hR]
          exact ⟨by trivial, by trivial, marker_mem_append _ _ (by decide)⟩
  · intro idx hB
    unfold getLaneStatus
    by_cases hA : laneInactive f = true
    · simp only [hA, if_true]
      decide
    · simp only [hA, Bool.false_eq_true, if_false, hB]
      cases hC : findSchedule idx f with
      | none =>
        exact (by decide : '🪧' ∉ ("לא נמצא מידע על שעות – ייתכן שחסום" : String).data)
      | some sch =>
        by_cases hW : sch.hours.allWeek = true
        · simp only [hW, if_true]
          decide
        · simp only [hW, Bool.false_eq_true, if_false]
          by_cases hE : rangesEmpty (rangesFor sch.hours (getDayType now)) = true
          · simp only [hE, if_true]
            exact no_marker_append _ _ (by decide) (hebrewDay_no_marker now.day)
          · simp only [hE, Bool.false_eq_true, if_false]
            cases hR : findFirstRange (getCurrentDecimalHour now)
                ((rangesFor sch.hours (getDayType now)).getD []) with
            | some p =>
              obtain ⟨s, e⟩ := p
              simp only [hR]
              exact no_marker_append _ _
                (no_marker_append _ _
                  (no_marker_append _ _ (by decide) (formatHour_no_marker s))
                  (by decide))
                (formatHour_no_marker e)
            | none =>
              simp only [hR]
              exact no_marker_append _ _
                (no_marker_append _ _ (by decide) (rangeListStr_no_marker _))
                (by decide)
  · intro oid ovr h1 h2
    unfold getSignOverride
    simp only [h1, h2]

/-- C4 (witness): a decoded 24/7 override attached to oid 7 wins over a
static schedule entry for the same street; the result is the same with or
without the static index, carries the override and the 🪧 marker, and the
oid map answers the lookup. -/
theorem getLaneStatus_override_priority_witness :
    (getLaneStatus
        ⟨[], [(7, mkOverride { rid := "w1", street := some "הרצל", timestamp := 50,
                               status := "decoded",
                               decodedHours := some { allWeek := true } })]⟩
        [("הרצל", [⟨0, "הרצל", "default", { sun_thu := some [(7, 22)] }⟩])]
        ⟨{ street_name := some "הרצל", oid := some 7 }⟩ ⟨0, 10, 0⟩ =
      getLaneStatus
        ⟨[], [(7, mkOverride { rid := "w1", street := some "הרצל", timestamp := 50,
                               status := "decoded",
                               decodedHours := some { allWeek := true } })]⟩
        [] ⟨{ street_name := some "הרצל", oid := some 7 }⟩ ⟨0, 10, 0⟩) ∧
    '🪧' ∈ (getLaneStatus
        ⟨[], [(7, mkOverride { rid := "w1", street := some "הרצל", timestamp := 50,
                               status := "decoded",
                               decodedHours := some { allWeek := true } })]⟩
        [] ⟨{ street_name := some "הרצל", oid := some 7 }⟩ ⟨0, 10, 0⟩).reason.data ∧
    getSignOverride
        ⟨[], [(7, mkOverride { rid := "w1", street := some "הרצל", timestamp := 50,
                               status := "decoded",
                               decodedHours := some { allWeek := true } })]⟩
        ⟨{ street_name := some "הרצל", oid := some 7 }⟩ =
      some (mkOverride { rid := "w1", street := some "הרצל", timestamp := 50,
                         status := "decoded",
                         decodedHours := some { allWeek := true } }) := by
  have h := getLaneStatus_override_priority
    ⟨[], [(7, mkOverride { rid := "w1", street := some "הרצל", timestamp := 50,
                           status := "decoded",
                           decodedHours := some { allWeek := true } })]⟩
    ⟨{ street_name := some "הרצל", oid := some 7 }⟩ ⟨0, 10, 0⟩
  exact ⟨h.1 _ _ [] rfl rfl, (h.2.1 _ [] rfl rfl).2.2, h.2.2.2 7 _ rfl rfl⟩

/-- A match score is never negative: every branch of `matchScore` returns
`0` or a positive base plus non-negative bonuses (possibly capped at the
positive value `1/2`). -/
theorem matchScore_nonneg (e : ScheduleEntry) (f : Feature) :
    0 ≤ matchScore e f := by
  unfold matchScore
  all_goals simp_all
  all_goals positivity

/-- The scoring loop invariant: starting from accumulator `(b, q)`, either
no candidate strictly beats `q` (and the accumulator survives unchanged),
or the loop returns the first candidate attaining the running maximum:
some split `l1 ++ e :: l2` where every earlier candidate scores strictly
below `e`'s score, every later one at most it, and `e` strictly beats the
initial `q`. -/
theorem bestLoop_cases (f : Feature) :
    ∀ (cs : List ScheduleEntry) (b : Option ScheduleEntry) (q : ℚ),
      (bestLoop f cs (b, q) = (b, q) ∧ ∀ e ∈ cs, matchScore e f ≤ q) ∨
      (∃ l1 e l2, cs = l1 ++ e :: l2 ∧
        bestLoop f cs (b, q) = (some e, matchScore e f) ∧
        q < matchScore e f ∧
        (∀ x ∈ l1, matchScore x f < matchScore e f) ∧
        (∀ x ∈ l2, matchScore x f ≤ matchScore e f)) := by
  intro cs
  induction cs with
  | nil =>
    intro b q
    left
    exact ⟨rfl, fun e h => absurd h (List.not_mem_nil e)⟩
  | cons e es ih =>
    intro b q
    by_cases hs : matchScore e f > q
    · have hstep : bestLoop f (e :: es) (b, q) =
          bestLoop f es (some e, matchScore e f) := by
        simp [bestLoop, hs]
      rcases ih (some e) (matchScore e f) with ⟨heq, hall⟩ |
        ⟨l1, e', l2, hcs, heq, hlt, hl1, hl2⟩
      · right
        exact ⟨[], e, es, rfl, hstep.trans heq, hs,
          fun x hx => absurd hx (List.not_mem_nil x), hall⟩
      · right
        refine ⟨e :: l1, e', l2, by rw [hcs, List.cons_append], hstep.trans heq,
          lt_trans hs hlt, ?_, hl2⟩
        intro x hx
        rcases List.mem_cons.mp hx with rfl | hx
        · exact hlt
        · exact hl1 x hx
    · have hstep : bestLoop f (e :: es) (b, q) = bestLoop f es (b, q) := by
        simp [bestLoop, hs]
      rcases ih b q with ⟨heq, hall⟩ | ⟨l1, e', l2, hcs, heq, hlt, hl1, hl2⟩
      · left
        refine ⟨hstep.trans heq, ?_⟩
        intro x hx
        rcases List.mem_cons.mp hx with rfl | hx
        · exact not_lt.mp hs
        · exact hall x hx
      · right
        refine ⟨e :: l1, e', l2, by rw [hcs, List.cons_append], hstep.trans heq, hlt, ?_, hl2⟩
        intro x hx
        rcases List.mem_cons.mp hx with rfl | hx
        · exact lt_of_le_of_lt (not_lt.mp hs) hlt
        · exact hl1 x hx

/-- C5: `findSchedule` returns a single collected candidate directly
(without consulting its score); with several candidates it returns the
first candidate attaining the maximum score (strictly higher than every
earlier candidate's score, at least every other's — ties keep the
first-seen candidate in index order); and when every candidate scores
zero it returns the first candidate rather than reporting no match. -/
theorem findSchedule_selection (idx : ScheduleIndex) (f : Feature) :
    (∀ c, scheduleCandidates idx f = [c] → findSchedule idx f = some c) ∧
    (∀ c d rest, scheduleCandidates idx f = c :: d :: rest →
      ((∀ e ∈ c :: d :: rest, matchScore e f = 0) → findSchedule idx f = some c) ∧
      (∃ l1 e l2, c :: d :: rest = l1 ++ e :: l2 ∧ findSchedule idx f = some e ∧
        (∀ x ∈ l1, matchScore x f < matchScore e f) ∧
        (∀ x ∈ c :: d :: rest, matchScore x f ≤ matchScore e f))) := by
  constructor
  · intro c hcand
    unfold findSchedule
    rw [hcand]
  · intro c d rest hcand
    have hfs : findSchedule idx f =
        some ((bestLoop f (c :: d :: rest) (none, 0)).1.getD c) := by
      unfold findSchedule
      rw [hcand]
    rcases bestLoop_cases f (c :: d :: rest) none 0 with ⟨heq, hall⟩ |
      ⟨l1, e, l2, hcs, heq, hlt, hl1, hl2⟩
    · constructor
      · intro _
        rw [hfs, heq]
        rfl
      · have hc0 : matchScore c f = 0 :=
          le_antisymm (hall c (List.mem_cons_self c _)) (matchScore_nonneg c f)
        refine ⟨[], c, d :: rest, rfl, by rw [hfs, heq]; rfl, ?_, ?_⟩
        · intro x hx
          exact absurd hx (List.not_mem_nil x)
        · intro x hx
          rw [hc0]
          exact hall x hx
    · constructor
      · intro hzero
        have he : e ∈ c :: d :: rest := by
          rw [hcs]
          exact List.mem_append_right l1 (List.mem_cons_self e l2)
        rw [hzero e he] at hlt
        exact absurd hlt (by norm_num)
      · refine ⟨l1, e, l2, hcs, by rw [hfs, heq]; rfl, hl1, ?_⟩
        intro x hx
        rw [hcs] at hx
        rcases List.mem_append.mp hx with h | h
        · exact le_of_lt (hl1 x h)
        · rcases List.mem_cons.mp h with rfl | h
          · exact le_refl _
          · exact hl2 x h

/-- C5 (witness): with a single collected candidate (one matching index
key holding one row), `findSchedule` returns it directly. -/
theorem findSchedule_selection_witness :
    findSchedule [("הרצל", [⟨0, "הרצל", "default", { sun_thu := some [(7, 22)] }⟩])]
      ⟨{ street_name := some "הרצל" }⟩ =
      some ⟨0, "הרצל", "default", { sun_thu := some [(7, 22)] }⟩ :=
  (findSchedule_selection
      [("הרצל", [⟨0, "הרצל", "default", { sun_thu := some [(7, 22)] }⟩])]
      ⟨{ street_name := some "הרצל" }⟩).1 _ (by decide)

/-- Dropping a leading run twice equals dropping it once. -/
theorem dropWhile_idem (p : Char → Bool) (l : List Char) :
    List.dropWhile p (List.dropWhile p l) = List.dropWhile p l := by
  induction l with
  | nil => rfl
  | cons c rest ih =>
    rw [List.dropWhile]
    cases h : p c
    · simp only [List.dropWhile, h]
    · exact ih

/-- The length of a dropWhile result never exceeds the input's. -/
theorem dropWhile_length_le (p : Char → Bool) (l : List Char) :
    (List.dropWhile p l).length ≤ l.length := by
  induction l with
  | nil => simp [List.dropWhile]
  | cons c rest ih =>
    rw [List.dropWhile]
    cases p c
    · simp
    · simp
      omega

/-- Dropping a trailing run twice equals dropping it once. -/
theorem dropTrailingWs_idem (l : List Char) :
    dropTrailingWs (dropTrailingWs l) = dropTrailingWs l := by
  induction l with
  | nil => rfl
  | cons c rest ih =>
    by_cases h : (dropTrailingWs rest).isEmpty && isJsWs c
    · simp [dropTrailingWs, h]
    · simp only [dropTrailingWs, h, if_false]
      simp only [dropTrailingWs, ih, h, if_false]

/-- Removing trailing whitespace preserves the absence of leading
whitespace. -/
theorem dropWhile_dropTrailingWs (l : List Char)
    (h : List.dropWhile isJsWs l = l) :
    List.dropWhile isJsWs (dropTrailingWs l) = dropTrailingWs l := by
  cases l with
  | nil => rfl
  | cons c rest =>
    have hc : isJsWs c = false := by
      cases hp : isJsWs c
      · rfl
      · exfalso
        have h2 : List.dropWhile isJsWs (c :: rest) = List.dropWhile isJsWs rest := by
          simp [List.dropWhile, hp]
        rw [h] at h2
        have hlen := dropWhile_length_le isJsWs rest
        rw [← h2] at hlen
        simp only [List.length_cons] at hlen
        omega
    by_cases hcond : (dropTrailingWs rest).isEmpty && isJsWs c
    · simp [dropTrailingWs, hcond]
    · simp only [dropTrailingWs, hcond, if_false]
      simp [List.dropWhile, hc]

/-- `jsTrim` is idempotent. -/
theorem jsTrim_idem (l : List Char) : jsTrim (jsTrim l) = jsTrim l := by
  unfold jsTrim
  rw [dropWhile_dropTrailingWs _ (dropWhile_idem isJsWs l), dropTrailingWs_idem]

/-- Characters of a collapsed list come from the input or are the
replacement space. -/
theorem mem_collapseWsGo (c : Char) :
    ∀ (flag : Bool) (l : List Char), c ∈ collapseWsGo flag l → c = ' ' ∨ c ∈ l := by
  intro flag l
  induction l generalizing flag with
  | nil => intro h; exact absurd h (List.not_mem_nil c)
  | cons d rest ih =>
    intro h
    by_cases hd : isJsWs d = true
    · cases flag with
      | true =>
        simp only [collapseWsGo, hd, if_true] at h
        rcases ih true h with h1 | h1
        · exact Or.inl h1
        · exact Or.inr (List.mem_cons_of_mem d h1)
      | false =>
        simp only [collapseWsGo, hd, if_true] at h
        rcases List.mem_cons.mp h with rfl | h1
        · exact Or.inl rfl
        · rcases ih true h1 with h2 | h2
          · exact Or.inl h2
          · exact Or.inr (List.mem_cons_of_mem d h2)
    · simp only [collapseWsGo, hd, Bool.false_eq_true, if_false] at h
      rcases List.mem_cons.mp h with rfl | h1
      · exact Or.inr (List.mem_cons_self c rest)
      · rcases ih false h1 with h2 | h2
        · exact Or.inl h2
        · exact Or.inr (List.mem_cons_of_mem d h2)

/-- Characters survive trailing-whitespace removal only from the input. -/
theorem mem_dropTrailingWs (c : Char) :
    ∀ l : List Char, c ∈ dropTrailingWs l → c ∈ l := by
  intro l
  induction l with
  | nil => exact fun h => h
  | cons d rest ih =>
    intro h
    by_cases hcond : (dropTrailingWs rest).isEmpty && isJsWs d
    · rw [dropTrailingWs] at h
      simp only [hcond, if_true] at h
      exact absurd h (List.not_mem_nil c)
    · rw [dropTrailingWs] at h
      simp only [hcond, if_false] at h
      rcases List.mem_cons.mp h with rfl | h1
      · exact List.mem_cons_self c rest
      · exact List.mem_cons_of_mem d (ih h1)

/-- Characters survive leading-run removal only from the input. -/
theorem mem_dropWhile (p : Char → Bool) (c : Char) :
    ∀ l : List Char, c ∈ List.dropWhile p l → c ∈ l := by
  intro l
  induction l with
  | nil => exact fun h => h
  | cons d rest ih =>
    intro h
    rw [List.dropWhile] at h
    cases hp : p d
    · rw [hp] at h
      simpa using h
    · rw [hp] at h
      simp only [if_true] at h
      exact List.mem_cons_of_mem d (ih h)

/-- In a collapsed list every whitespace character is the replacement
space. -/
theorem collapseWsGo_space :
    ∀ (flag : Bool) (l : List Char), ∀ c ∈ collapseWsGo flag l,
      isJsWs c = true → c = ' ' := by
  intro flag l
  induction l generalizing flag with
  | nil => intro c h; exact absurd h (List.not_mem_nil c)
  | cons d rest ih =>
    intro c h hc
    by_cases hd : isJsWs d = true
    · cases flag with
      | true =>
        simp only [collapseWsGo, hd, if_true] at h
        exact ih true c h hc
      | false =>
        simp only [collapseWsGo, hd, if_true] at h
        rcases List.mem_cons.mp h with rfl | h1
        · rfl
        · exact ih true c h1 hc
    · simp only [collapseWsGo, hd, Bool.false_eq_true, if_false] at h
      rcases List.mem_cons.mp h with rfl | h1
      · exact absurd hc (by simp [hd])
      · exact ih false c h1 hc

/-- Collapsing yields no adjacent whitespace pair; in flag-`true` position
the output additionally never starts with whitespace. -/
theorem collapseWsGo_chain :
    ∀ l : List Char,
      List.Chain' (fun a b => ¬(isJsWs a = true ∧ isJsWs b = true))
        (collapseWsGo false l) ∧
      List.Chain' (fun a b => ¬(isJsWs a = true ∧ isJsWs b = true))
        (collapseWsGo true l) ∧
      (∀ c, (collapseWsGo true l).head? = some c → isJsWs c = false) := by
  intro l
  induction l with
  | nil =>
    refine ⟨List.chain'_nil, List.chain'_nil, ?_⟩
    intro c h
    simp [collapseWsGo] at h
  | cons d rest ih =>
    obtain ⟨ihF, ihT, ihH⟩ := ih
    by_cases hd : isJsWs d = true
    · refine ⟨?_, ?_, ?_⟩
      · simp only [collapseWsGo, hd, if_true, Bool.false_eq_true, if_false]
        rw [List.chain'_cons']
        refine ⟨?_, ihT⟩
        intro y hy
        have := ihH y hy
        intro hcon
        rw [this] at hcon
        exact absurd hcon.2 (by simp)
      · simp only [collapseWsGo, hd, if_true]
        exact ihT
      · simp only [collapseWsGo, hd, if_true]
        exact ihH
    · have hF : collapseWsGo false (d :: rest) = d :: collapseWsGo false rest := by
        simp [collapseWsGo, hd]
      have hT : collapseWsGo true (d :: rest) = d :: collapseWsGo false rest := by
        simp [collapseWsGo, hd]
      have hchain : List.Chain' (fun a b => ¬(isJsWs a = true ∧ isJsWs b = true))
          (d :: collapseWsGo false rest) := by
        rw [List.chain'_cons']
        refine ⟨?_, ihF⟩
        intro y _
        intro hcon
        exact absurd hcon.1 (by simp [hd])
      refine ⟨by rw [hF]; exact hchain, by rw [hT]; exact hchain, ?_⟩
      intro c h
      rw [hT] at h
      simp only [List.head?_cons, Option.some.injEq] at h
      subst h
      simpa using hd

/-- Removing a leading run preserves the no-adjacent-whitespace chain. -/
theorem chain_dropWhile (p : Char → Bool) (l : List Char)
    (h : List.Chain' (fun a b => ¬(isJsWs a = true ∧ isJsWs b = true)) l) :
    List.Chain' (fun a b => ¬(isJsWs a = true ∧ isJsWs b = true))
      (List.dropWhile p l) := by
  induction l with
  | nil => exact h
  | cons c rest ih =>
    rw [List.dropWhile]
    cases p c
    · simpa using h
    · simp only [if_true]
      exact ih (List.chain'_cons'.mp h).2

/-- The head survives trailing-whitespace removal (or everything is
removed). -/
theorem dropTrailingWs_head (l : List Char) :
    dropTrailingWs l = [] ∨ (dropTrailingWs l).head? = l.head? := by
  cases l with
  | nil => exact Or.inl rfl
  | cons c rest =>
    by_cases hcond : (dropTrailingWs rest).isEmpty && isJsWs c
    · left
      simp [dropTrailingWs, hcond]
    · right
      simp [dropTrailingWs, hcond]

/-- Removing a trailing run preserves the no-adjacent-whitespace chain. -/
theorem chain_dropTrailingWs (l : List Char)
    (h : List.Chain' (fun a b => ¬(isJsWs a = true ∧ isJsWs b = true)) l) :
    List.Chain' (fun a b => ¬(isJsWs a = true ∧ isJsWs b = true))
      (dropTrailingWs l) := by
  induction l with
  | nil => exact h
  | cons c rest ih =>
    by_cases hcond : (dropTrailingWs rest).isEmpty && isJsWs c
    · simp [dropTrailingWs, hcond]
    · simp only [dropTrailingWs, hcond, Bool.false_eq_true, if_false]
      rw [List.chain'_cons']
      obtain ⟨hhead, htail⟩ := List.chain'_cons'.mp h
      refine ⟨?_, ih htail⟩
      intro y hy
      rcases dropTrailingWs_head rest with hemp | hh
      · rw [hemp] at hy
        simp at hy
      · rw [hh] at hy
        exact hhead y hy

/-- On a list whose whitespace is single spaces with no two adjacent,
collapsing is the identity. -/
theorem collapseWs_noop (l : List Char)
    (hS : ∀ c ∈ l, isJsWs c = true → c = ' ')
    (hC : List.Chain' (fun a b => ¬(isJsWs a = true ∧ isJsWs b = true)) l) :
    collapseWs l = l := by
  unfold collapseWs
  induction l with
  | nil => rfl
  | cons d rest ih =>
    by_cases hd : isJsWs d = true
    · have hd' : d = ' ' := hS d (List.mem_cons_self d rest) hd
      cases rest with
      | nil => simp [collapseWsGo, hd, hd']
      | cons e es =>
        have he : isJsWs e = false := by
          obtain ⟨hhead, _⟩ := List.chain'_cons'.mp hC
          have := hhead e (by simp)
          cases hp : isJsWs e
          · rfl
          · exact absurd ⟨hd, hp⟩ this
        have htail : collapseWsGo false (e :: es) = e :: es :=
          ih (fun c hc hw => hS c (List.mem_cons_of_mem d hc) hw)
            (List.chain'_cons'.mp hC).2
        have htail' : collapseWsGo false es = es := by
          have hstep : collapseWsGo false (e :: es) = e :: collapseWsGo false es := by
            simp [collapseWsGo, he]
          rw [hstep] at htail
          injection htail
        simp only [collapseWsGo, hd, if_true, he, Bool.false_eq_true, if_false]
        rw [htail', hd']
    · have hstep : collapseWsGo false (d :: rest) = d :: collapseWsGo false rest := by
        simp [collapseWsGo, hd]
      rw [hstep,
        ih (fun c hc hw => hS c (List.mem_cons_of_mem d hc) hw)
          (List.chain'_cons'.mp hC).2]

/-- A string fixed by all four normalization stages is fixed by
`normStr`. -/
theorem normStr_fixed (t : String) (ht0 : t ≠ "")
    (htrim : jsTrim t.data = t.data)
    (hstripped : stripStreetWord t.data = t.data)
    (hquote : List.filter (fun c => !(isQuoteChar c)) t.data = t.data)
    (hcollapse : collapseWs t.data = t.data) :
    normStr t = t := by
  show (if t = "" then "" else
    String.mk (jsTrim (collapseWs
      (List.filter (fun c => !(isQuoteChar c)) (stripStreetWord (jsTrim t.data)))))) = t
  rw [if_neg ht0, htrim, hstripped, hquote, hcollapse, htrim]

/-- C6 (counterexample): `normalizeStreet` is not idempotent.  The anchored
prefix regex strips only one leading street-type word per call, so
`"דרך דרך הים"` normalizes to `"דרך הים"`, which a second normalization
shrinks further to `"הים"`. -/
theorem normalizeStreet_not_idempotent :
    normalizeStreet (some (normalizeStreet (some "דרך דרך הים"))) ≠
      normalizeStreet (some "דרך דרך הים") := by
  decide

/-- C6 (amended): `normalizeStreet` is idempotent on every input whose
normalized form is not itself subject to another leading street-type-word
strip (in particular on `null`, the empty string, and every name whose
normal form does not begin with a removable prefix); the sole failure mode
is a normal form that still starts with a strippable street-type word. -/
theorem normalizeStreet_idem_amended (s : Option String)
    (h : stripStreetWord (normalizeStreet s).data = (normalizeStreet s).data) :
    normalizeStreet (some (normalizeStreet s)) = normalizeStreet s := by
  cases s with
  | none => rfl
  | some s =>
    show normStr (normStr s) = normStr s
    by_cases hs0 : s = ""
    · subst hs0
      rfl
    · by_cases ht0 : normStr s = ""
      · rw [ht0]
        rfl
      · have hdata : (normStr s).data =
            jsTrim (collapseWs (List.filter (fun c => !(isQuoteChar c))
              (stripStreetWord (jsTrim s.data)))) := by
          conv_lhs =>
            rw [show normStr s = String.mk (jsTrim (collapseWs
              (List.filter (fun c => !(isQuoteChar c))
                (stripStreetWord (jsTrim s.data)))))
              from by unfold normStr; rw [if_neg hs0]]
        have hmem : ∀ c ∈ (normStr s).data,
            c ∈ collapseWs (List.filter (fun c => !(isQuoteChar c))
              (stripStreetWord (jsTrim s.data))) := by
          intro c hc
          rw [hdata] at hc
          unfold jsTrim at hc
          exact mem_dropWhile isJsWs c _ (mem_dropTrailingWs c _ hc)
        refine normStr_fixed (normStr s) ht0 ?_ ?_ ?_ ?_
        · rw [hdata, jsTrim_idem]
        · exact h
        · rw [List.filter_eq_self]
          intro c hc
          rcases mem_collapseWsGo c false _ (hmem c hc) with rfl | hc2
          · decide
          · exact (List.mem_filter.mp hc2).2
        · refine collapseWs_noop _ ?_ ?_
          · intro c hc hw
            exact collapseWsGo_space false _ c (hmem c hc) hw
          · rw [hdata]
            unfold jsTrim
            exact chain_dropTrailingWs _
              (chain_dropWhile isJsWs _ (collapseWsGo_chain _).1)

/-- C6 (witness): the amended idempotence applied to `"רחוב אלנבי"`, whose
normal form `"אלנבי"` carries no further strippable prefix. -/
theorem normalizeStreet_idem_amended_witness :
    normalizeStreet (some (normalizeStreet (some "רחוב אלנבי"))) =
      normalizeStreet (some "רחוב אלנבי") :=
  normalizeStreet_idem_amended (some "רחוב אלנבי") (by decide)

/-- C7: with two opposing-direction candidate segments inside the 60-unit
snap radius whose distances at the camera differ by 5 units, a camera
without a house number is assigned to both segments with
`bidirectional = true` (5 < the 10-unit pairing window), while the same
geometry with a positive house number present is assigned only the nearer
segment with `bidirectional = false` (5 ≥ the 3-unit ambiguity
threshold). -/
theorem assignCamera_bidirectional_rule (f1 f2 : Feature) (d1 d2 : String)
    (q1 q2 : ℚ)
    (hd1 : f1.attributes.direction_name = some d1)
    (hd2 : f2.attributes.direction_name = some d2)
    (h1ne : d1 ≠ "") (h2ne : d2 ≠ "")
    (h1nn : d1 ≠ "none") (h2nn : d2 ≠ "none")
    (hne : d1 ≠ d2)
    (_hq1 : 0 ≤ q1) (hq2 : q2 = q1 + 5) (hlt : q2 < 60) :
    assignCamera [⟨f1, q1⟩, ⟨f2, q2⟩] none = some ([f1, f2], true) ∧
    (∀ n : ℤ, 0 < n →
      assignCamera [⟨f1, q1⟩, ⟨f2, q2⟩] (some n) = some ([f1], false)) := by
  have hq1lt : q1 < 60 := by linarith
  have hle : q1 ≤ q2 := by linarith
  have habs : |q1 - q2| = 5 := by
    rw [hq2]
    rw [show q1 - (q1 + 5) = -5 by ring]
    norm_num
  have hdir1 : dirOf f1 = d1 := by
    unfold dirOf
    rw [hd1]
    simp [h1ne]
  have hdir2 : dirOf f2 = d2 := by
    unfold dirOf
    rw [hd2]
    simp [h2ne]
  have hfilter : List.filter (fun c => c.dist < 60)
      [CamCand.mk f1 q1, CamCand.mk f2 q2] = [⟨f1, q1⟩, ⟨f2, q2⟩] := by
    simp [List.filter_cons, hq1lt, hlt]
  have hsort : sortByDist [CamCand.mk f1 q1, CamCand.mk f2 q2] =
      [⟨f1, q1⟩, ⟨f2, q2⟩] := by
    unfold sortByDist
    simp [insertByDist, hle]
  have hdirs : distinctDirs [CamCand.mk f1 q1, CamCand.mk f2 q2] = [d1, d2] := by
    unfold distinctDirs dedupStr
    simp only [List.map_cons, List.map_nil, hdir1, hdir2]
    have hgo : dedupStr.go [] [d1, d2] = [d1, d2] := by
      unfold dedupStr.go
      simp only [List.not_mem_nil, if_false]
      unfold dedupStr.go
      simp only [List.mem_singleton, Ne.symm hne, if_false]
      rfl
    rw [hgo]
    simp [List.filter_cons, h1nn, h2nn]
  have hfind : List.find? (fun n => dirOf n.feature ≠ dirOf (CamCand.mk f1 q1).feature)
      [CamCand.mk f1 q1, CamCand.mk f2 q2] = some ⟨f2, q2⟩ := by
    simp [List.find?, hdir1, hdir2, hne, Ne.symm hne]
  constructor
  · unfold assignCamera
    rw [hfilter, hsort]
    simp only [hdirs, List.isEmpty_cons, List.length_cons, List.length_nil,
      List.length_singleton]
    rw [if_neg (by norm_num), if_pos (by norm_num)]
    simp [hfind, habs, hdir1, hdir2, Ne.symm hne]
    norm_num
  · intro n hn
    unfold assignCamera
    rw [hfilter, hsort]
    simp only [hdirs, List.isEmpty_cons, List.length_cons, List.length_nil,
      List.length_singleton]
    rw [if_neg (by norm_num), if_pos (by norm_num)]
    simp [hfind, habs, hn, hdir1, hdir2, Ne.symm hne]
    norm_num

/-- C7 (witness): a northbound and a southbound segment at distances 10 and
15: bidirectional without a house number, single nearer segment with house
number 4. -/
theorem assignCamera_bidirectional_rule_witness :
    assignCamera [⟨⟨{ direction_name := some "N" }⟩, 10⟩,
                  ⟨⟨{ direction_name := some "S" }⟩, 15⟩] none =
      some ([⟨{ direction_name := some "N" }⟩,
             ⟨{ direction_name := some "S" }⟩], true) ∧
    assignCamera [⟨⟨{ direction_name := some "N" }⟩, 10⟩,
                  ⟨⟨{ direction_name := some "S" }⟩, 15⟩] (some 4) =
      some ([⟨{ direction_name := some "N" }⟩], false) := by
  have h := assignCamera_bidirectional_rule
    ⟨{ direction_name := some "N" }⟩ ⟨{ direction_name := some "S" }⟩
    "N" "S" 10 15 rfl rfl (by decide) (by decide) (by decide) (by decide)
    (by decide) (by norm_num) (by norm_num) (by norm_num)
  exact ⟨h.1, h.2 4 (by norm_num)⟩

/-- C9 (counterexample): two consecutive identical samples with positive
elapsed time do not produce a speed trending toward zero: the
sub-threshold movement is discarded as jitter and the smoothed speed stays
exactly at its previous value (here 10 m/s), so it does not decrease. -/
theorem updateFilteredSpeed_identical_cex :
    (updateFilteredSpeedAndBearing (fun _ _ _ _ => 0) (fun _ _ _ _ => 0)
        ⟨10, none, 0, some (1, 1)⟩ 1 1 1000).filteredSpeed = 10 ∧
    ¬((updateFilteredSpeedAndBearing (fun _ _ _ _ => 0) (fun _ _ _ _ => 0)
        ⟨10, none, 0, some (1, 1)⟩ 1 1 1000).filteredSpeed < 10) := by
  constructor <;> norm_num [updateFilteredSpeedAndBearing, GPS_MIN_MOVE_METERS]

/-- C9 (amended): on two consecutive samples with identical lat/lng and
positive elapsed time the filter skips the speed/bearing update as
sub-threshold jitter — the smoothed speed (and bearing) survive unchanged
and only the timestamp advances, with no division performed (in this total
`ℚ` model no NaN can arise); and a zero-or-negative elapsed-time delta
skips the update entirely, leaving every register untouched. -/
theorem updateFilteredSpeedAndBearing_spec
    (distFn bearFn : ℚ → ℚ → ℚ → ℚ → ℚ) (st : GpsState) (lat lng now : ℚ) :
    (st.prevFiltered = some (lat, lng) →
      0 < (now - st.lastFilteredTime) / 1000 →
      distFn lat lng lat lng = 0 →
      updateFilteredSpeedAndBearing distFn bearFn st lat lng now =
        { st with lastFilteredTime := now }) ∧
    (∀ p, st.prevFiltered = some p →
      (now - st.lastFilteredTime) / 1000 ≤ 0 →
      updateFilteredSpeedAndBearing distFn bearFn st lat lng now = st) := by
  constructor
  · intro hprev hdt hdist
    unfold updateFilteredSpeedAndBearing
    rw [hprev]
    dsimp only
    rw [if_neg (not_le.mpr hdt), hdist]
    rw [if_pos (by norm_num [GPS_MIN_MOVE_METERS])]
  · intro p hprev hdt
    obtain ⟨plat, plng⟩ := p
    unfold updateFilteredSpeedAndBearing
    rw [hprev]
    dsimp only
    rw [if_pos hdt]

/-- C9 (witness): the amended theorem at a concrete state with smoothed
speed 10, identical previous and current position `(1, 1)` and a one-second
delta, and at a negative delta. -/
theorem updateFilteredSpeedAndBearing_spec_witness :
    updateFilteredSpeedAndBearing (fun _ _ _ _ => 0) (fun _ _ _ _ => 0)
        ⟨10, none, 0, some (1, 1)⟩ 1 1 1000 =
      { filteredSpeed := 10, filteredBearing := none,
        lastFilteredTime := 1000, prevFiltered := some (1, 1) } ∧
    updateFilteredSpeedAndBearing (fun _ _ _ _ => 0) (fun _ _ _ _ => 0)
        ⟨10, none, 0, some (1, 1)⟩ 1 1 (-5) =
      ⟨10, none, 0, some (1, 1)⟩ :=
  ⟨(updateFilteredSpeedAndBearing_spec (fun _ _ _ _ => 0) (fun _ _ _ _ => 0)
      ⟨10, none, 0, some (1, 1)⟩ 1 1 1000).1 rfl (by norm_num) rfl,
   (updateFilteredSpeedAndBearing_spec (fun _ _ _ _ => 0) (fun _ _ _ _ => 0)
      ⟨10, none, 0, some (1, 1)⟩ 1 1 (-5)).2 (1, 1) rfl (by norm_num)⟩

/-- Looking up the key just assigned returns the assigned value. -/
theorem lookupAssoc_assocSet_self {α β : Type} [DecidableEq α] (k : α) (v : β) :
    ∀ m : List (α × β), lookupAssoc (assocSet k v m) k = some v := by
  intro m
  induction m with
  | nil => simp [assocSet, lookupAssoc]
  | cons kv rest ih =>
    obtain ⟨k', w⟩ := kv
    by_cases h : k' = k
    · simp [assocSet, h, lookupAssoc]
    · simp only [assocSet, h, if_false]
      simp only [lookupAssoc, h, if_false]
      exact ih

/-- Assignment at one key leaves every other key's lookup unchanged. -/
theorem lookupAssoc_assocSet_ne {α β : Type} [DecidableEq α] (k k' : α)
    (v : β) (hne : k ≠ k') :
    ∀ m : List (α × β), lookupAssoc (assocSet k v m) k' = lookupAssoc m k' := by
  intro m
  induction m with
  | nil => simp [assocSet, lookupAssoc, hne]
  | cons kv rest ih =>
    obtain ⟨k'', w⟩ := kv
    by_cases h : k'' = k
    · subst h
      simp [assocSet, lookupAssoc, hne]
    · simp only [assocSet, h, if_false]
      simp only [lookupAssoc]
      by_cases h2 : k'' = k'
      · simp [h2]
      · simp only [h2, if_false]
        exact ih

/-- Folding identical-value assignments over a list of oids: a member key
reads the assigned override, any other key is untouched. -/
theorem lookupAssoc_foldl_assocSet (ovr : Override) :
    ∀ (ids : List Nat) (m : List (Nat × Override)) (o : Nat),
      lookupAssoc (ids.foldl (fun acc oid => assocSet oid ovr acc) m) o =
        if o ∈ ids then some ovr else lookupAssoc m o := by
  intro ids
  induction ids with
  | nil => intro m o; simp
  | cons i rest ih =>
    intro m o
    rw [List.foldl_cons, ih]
    by_cases hmem : o ∈ rest
    · simp [hmem, List.mem_cons]
    · simp only [hmem, if_false]
      by_cases hoi : o = i
      · subst hoi
        simp [lookupAssoc_assocSet_self]
      · simp [List.mem_cons, hoi, hmem,
          lookupAssoc_assocSet_ne i o ovr (fun h => hoi h.symm)]

/-- One rebuild iteration, seen through a street-key lookup: apply the
report's street write if any, otherwise keep the previous binding. -/
theorem rebuildStep_byStreet_lookup (st : OverrideState) (r : Report)
    (k : String) :
    lookupAssoc (rebuildStep st r).byStreet k =
      (streetWriteOf r k).elim (lookupAssoc st.byStreet k) some := by
  unfold rebuildStep streetWriteOf
  by_cases h0 : streetKeyOf r = ""
  · simp [h0]
  · by_cases hf : featureIdsNonempty r
    · simp [h0, hf]
    · by_cases hk : streetKeyOf r = k
      · subst hk
        simp [h0, hf, lookupAssoc_assocSet_self]
      · simp [h0, hf, hk, lookupAssoc_assocSet_ne _ _ _ hk]

/-- One rebuild iteration, seen through an oid lookup. -/
theorem rebuildStep_byOid_lookup (st : OverrideState) (r : Report) (o : Nat) :
    lookupAssoc (rebuildStep st r).byOid o =
      (oidWriteOf r o).elim (lookupAssoc st.byOid o) some := by
  unfold rebuildStep oidWriteOf
  by_cases h0 : streetKeyOf r = ""
  · simp [h0]
  · by_cases hf : featureIdsNonempty r
    · by_cases hmem : o ∈ r.featureIds.getD []
      · simp [h0, hf, hmem, lookupAssoc_foldl_assocSet]
      · simp [h0, hf, hmem, lookupAssoc_foldl_assocSet]
    · simp [h0, hf]

/-- Folding the rebuild over a report list: a lookup afterwards reads the
last write for that key among the folded reports, falling back to the
initial state — the map-level statement of last-write-wins.  Generic over
the two maps via the projection `proj` and write function `w`. -/
theorem foldl_rebuildStep_lookup {γ : Type} [DecidableEq γ]
    (proj : OverrideState → List (γ × Override))
    (w : Report → γ → Option Override)
    (hstep : ∀ st r k, lookupAssoc (proj (rebuildStep st r)) k =
      (w r k).elim (lookupAssoc (proj st) k) some) :
    ∀ (l : List Report) (st : OverrideState) (k : γ),
      lookupAssoc (proj (l.foldl rebuildStep st)) k =
        ((l.filterMap (fun r => w r k)).getLast?).elim
          (lookupAssoc (proj st) k) some := by
  intro l
  induction l with
  | nil => intro st k; simp
  | cons r t ih =>
    intro st k
    rw [List.foldl_cons, ih, List.filterMap_cons]
    cases hw : w r k with
    | none =>
      simp only [hstep st r k, hw, Option.elim]
    | some v =>
      cases hfm : t.filterMap (fun r => w r k) with
      | nil =>
        simp only [hfm, List.getLast?_nil, Option.elim, List.getLast?_singleton,
          hstep st r k, hw]
      | cons x xs =>
        have hex : ∃ g, (x :: xs).getLast? = some g := by
          cases hgl : (x :: xs).getLast? with
          | none =>
            rw [List.getLast?_eq_none_iff] at hgl
            exact absurd hgl (by simp)
          | some g => exact ⟨g, rfl⟩
        obtain ⟨g, hg⟩ := hex
        simp only [hfm, List.getLast?_cons_cons, hg, Option.elim]

/-- Membership is preserved by sorted insertion. -/
theorem mem_insertByTs (r x : Report) :
    ∀ l : List Report, x ∈ insertByTs r l ↔ x = r ∨ x ∈ l := by
  intro l
  induction l with
  | nil => simp [insertByTs]
  | cons y ys ih =>
    by_cases h : r.timestamp ≤ y.timestamp
    · simp [insertByTs, h, List.mem_cons]
    · simp only [insertByTs, h, if_false, List.mem_cons, ih]
      tauto

/-- Membership is preserved by the timestamp sort. -/
theorem mem_sortByTs (x : Report) :
    ∀ l : List Report, x ∈ sortByTs l ↔ x ∈ l := by
  intro l
  induction l with
  | nil => simp [sortByTs]
  | cons y ys ih =>
    rw [sortByTs, List.foldr_cons]
    rw [show List.foldr insertByTs [] ys = sortByTs ys from rfl]
    rw [mem_insertByTs, ih, List.mem_cons]

/-- Sorted insertion preserves ascending timestamp order. -/
theorem sorted_insertByTs (r : Report) :
    ∀ l : List Report,
      l.Pairwise (fun a b => a.timestamp ≤ b.timestamp) →
      (insertByTs r l).Pairwise (fun a b => a.timestamp ≤ b.timestamp) := by
  intro l
  induction l with
  | nil => intro _; simp [insertByTs]
  | cons y ys ih =>
    intro h
    rw [List.pairwise_cons] at h
    obtain ⟨hy, hys⟩ := h
    by_cases hle : r.timestamp ≤ y.timestamp
    · simp only [insertByTs, hle, if_true]
      rw [List.pairwise_cons]
      refine ⟨?_, ?_⟩
      · intro b hb
        rcases List.mem_cons.mp hb with rfl | hb
        · exact hle
        · exact le_trans hle (hy b hb)
      · rw [List.pairwise_cons]
        exact ⟨hy, hys⟩
    · simp only [insertByTs, hle, if_false]
      rw [List.pairwise_cons]
      refine ⟨?_, ih hys⟩
      intro b hb
      rcases (mem_insertByTs r b ys).mp hb with rfl | hb
      · exact le_of_not_le hle
      · exact hy b hb

/-- The rebuild's decoded list is sorted ascending by timestamp. -/
theorem sorted_sortByTs :
    ∀ l : List Report,
      (sortByTs l).Pairwise (fun a b => a.timestamp ≤ b.timestamp) := by
  intro l
  induction l with
  | nil => simp [sortByTs]
  | cons y ys ih =>
    rw [sortByTs, List.foldr_cons]
    exact sorted_insertByTs y _ ih

/-- Timestamp ordering transfers through a timestamp-preserving
filterMap. -/
theorem pairwise_ts_filterMap (w : Report → Option Override)
    (hts : ∀ r v, w r = some v → v.timestamp = r.timestamp) :
    ∀ l : List Report,
      l.Pairwise (fun a b => a.timestamp ≤ b.timestamp) →
      (l.filterMap w).Pairwise (fun a b => a.timestamp ≤ b.timestamp) := by
  intro l
  induction l with
  | nil => intro _; simp
  | cons r t ih =>
    intro h
    rw [List.pairwise_cons] at h
    obtain ⟨hr, ht⟩ := h
    rw [List.filterMap_cons]
    cases hw : w r with
    | none => exact ih ht
    | some v =>
      rw [List.pairwise_cons]
      refine ⟨?_, ih ht⟩
      intro y hy
      obtain ⟨x, hx, hxy⟩ := List.mem_filterMap.mp hy
      rw [hts r v hw, hts x y hxy]
      exact hr x hx

/-- In a timestamp-sorted list every element's timestamp is at most the
last element's. -/
theorem ts_le_getLast :
    ∀ l : List Override,
      l.Pairwise (fun a b => a.timestamp ≤ b.timestamp) →
      ∀ x ∈ l, ∀ g, l.getLast? = some g → x.timestamp ≤ g.timestamp := by
  intro l
  induction l with
  | nil => intro _ x hx; exact absurd hx (List.not_mem_nil x)
  | cons a rest ih =>
    intro h x hx g hg
    rw [List.pairwise_cons] at h
    obtain ⟨ha, hrest⟩ := h
    cases rest with
    | nil =>
      rw [List.getLast?_singleton] at hg
      rcases List.mem_singleton.mp hx with rfl
      rw [Option.some.injEq] at hg
      subst hg
      exact le_refl _
    | cons b bs =>
      rw [List.getLast?_cons_cons] at hg
      have hgmem : g ∈ b :: bs :=
        List.mem_of_mem_getLast? (by rw [hg]; exact rfl)
      rcases List.mem_cons.mp hx with rfl | hx2
      · exact le_trans (ha g hgmem) (le_refl _)
      · exact ih hrest x hx2 g hg

/-- A streetwise write carries its report's timestamp and hours. -/
theorem streetWriteOf_eq (r : Report) (k : String) (v : Override)
    (h : streetWriteOf r k = some v) : v = mkOverride r := by
  unfold streetWriteOf at h
  split at h
  · exact ((Option.some.injEq _ _).mp h).symm
  · exact absurd h (by simp)

/-- An oid write carries its report's timestamp and hours. -/
theorem oidWriteOf_eq (r : Report) (o : Nat) (v : Override)
    (h : oidWriteOf r o = some v) : v = mkOverride r := by
  unfold oidWriteOf at h
  split at h
  · exact ((Option.some.injEq _ _).mp h).symm
  · exact absurd h (by simp)

/-- C8: `rebuildSignOverrides` builds the two maps only from reports with
status `decoded` and a decoded-hours payload, processed in ascending
submission-timestamp order; each map binding equals the **last** write for
its key in that order (last-write-wins), every stored override is built
wholesale from a single decoded report (its hours are that report's
payload — no merging of partial fields), and the stored override's
submission timestamp is maximal among all decoded reports writing the same
key. -/
theorem rebuildSignOverrides_lww (reports : List Report) :
    (∀ k, lookupAssoc (rebuildSignOverrides reports).byStreet k =
      ((decodedReports reports).filterMap (fun r => streetWriteOf r k)).getLast?) ∧
    (∀ o, lookupAssoc (rebuildSignOverrides reports).byOid o =
      ((decodedReports reports).filterMap (fun r => oidWriteOf r o)).getLast?) ∧
    (decodedReports reports).Pairwise (fun a b => a.timestamp ≤ b.timestamp) ∧
    (∀ r, r ∈ decodedReports reports ↔
      r ∈ reports ∧ r.status = "decoded" ∧ r.decodedHours.isSome = true) ∧
    (∀ k ovr, lookupAssoc (rebuildSignOverrides reports).byStreet k = some ovr →
      (∃ r, r ∈ reports ∧ r.status = "decoded" ∧
        r.decodedHours = some ovr.hours ∧ ovr = mkOverride r) ∧
      ∀ r, r ∈ reports → r.status = "decoded" → r.decodedHours.isSome = true →
        streetWriteOf r k ≠ none → r.timestamp ≤ ovr.timestamp) ∧
    (∀ o ovr, lookupAssoc (rebuildSignOverrides reports).byOid o = some ovr →
      (∃ r, r ∈ reports ∧ r.status = "decoded" ∧
        r.decodedHours = some ovr.hours ∧ ovr = mkOverride r) ∧
      ∀ r, r ∈ reports → r.status = "decoded" → r.decodedHours.isSome = true →
        oidWriteOf r o ≠ none → r.timestamp ≤ ovr.timestamp) := by
  have hstreet : ∀ k, lookupAssoc (rebuildSignOverrides reports).byStreet k =
      ((decodedReports reports).filterMap (fun r => streetWriteOf r k)).getLast? := by
    intro k
    unfold rebuildSignOverrides
    rw [foldl_rebuildStep_lookup (fun st => st.byStreet) streetWriteOf
      rebuildStep_byStreet_lookup]
    cases ((decodedReports reports).filterMap (fun r => streetWriteOf r k)).getLast? <;> rfl
  have hoid : ∀ o, lookupAssoc (rebuildSignOverrides reports).byOid o =
      ((decodedReports reports).filterMap (fun r => oidWriteOf r o)).getLast? := by
    intro o
    unfold rebuildSignOverrides
    rw [foldl_rebuildStep_lookup (fun st => st.byOid) oidWriteOf
      rebuildStep_byOid_lookup]
    cases ((decodedReports reports).filterMap (fun r => oidWriteOf r o)).getLast? <;> rfl
  have hsorted : (decodedReports reports).Pairwise
      (fun a b => a.timestamp ≤ b.timestamp) := by
    unfold decodedReports
    exact sorted_sortByTs _
  have hmem : ∀ r, r ∈ decodedReports reports ↔
      r ∈ reports ∧ r.status = "decoded" ∧ r.decodedHours.isSome = true := by
    intro r
    unfold decodedReports
    rw [mem_sortByTs, List.mem_filter]
    simp
  refine ⟨hstreet, hoid, hsorted, hmem, ?_, ?_⟩
  · intro k ovr hovr
    rw [hstreet] at hovr
    have hovrmem : ovr ∈ (decodedReports reports).filterMap
        (fun r => streetWriteOf r k) :=
      List.mem_of_mem_getLast? (by rw [hovr]; exact rfl)
    obtain ⟨r0, hr0mem, hr0w⟩ := List.mem_filterMap.mp hovrmem
    have hovr_eq : ovr = mkOverride r0 := streetWriteOf_eq r0 k ovr hr0w
    have hr0' := (hmem r0).mp hr0mem
    refine ⟨⟨r0, hr0'.1, hr0'.2.1, ?_, hovr_eq⟩, ?_⟩
    · rw [hovr_eq]
      cases hdh : r0.decodedHours with
      | none =>
        have hs := hr0'.2.2
        rw [hdh] at hs
        exact absurd hs (by simp)
      | some hh => simp [mkOverride, hdh]
    · intro r hrmem hrst hrhours hw
      have hrdec : r ∈ decodedReports reports :=
        (hmem r).mpr ⟨hrmem, hrst, hrhours⟩
      cases hwv : streetWriteOf r k with
      | none => exact absurd hwv hw
      | some v =>
        have hvmem : v ∈ (decodedReports reports).filterMap
            (fun r => streetWriteOf r k) :=
          List.mem_filterMap.mpr ⟨r, hrdec, hwv⟩
        have hts : v.timestamp = r.timestamp := by
          rw [streetWriteOf_eq r k v hwv]
          rfl
        have hfm_sorted := pairwise_ts_filterMap (fun r => streetWriteOf r k)
          (fun r v h => by rw [streetWriteOf_eq r k v h]; rfl) _ hsorted
        have hle := ts_le_getLast _ hfm_sorted v hvmem ovr hovr
        rw [← hts]
        exact hle
  · intro o ovr hovr
    rw [hoid] at hovr
    have hovrmem : ovr ∈ (decodedReports reports).filterMap
        (fun r => oidWriteOf r o) :=
      List.mem_of_mem_getLast? (by rw [hovr]; exact rfl)
    obtain ⟨r0, hr0mem, hr0w⟩ := List.mem_filterMap.mp hovrmem
    have hovr_eq : ovr = mkOverride r0 := oidWriteOf_eq r0 o ovr hr0w
    have hr0' := (hmem r0).mp hr0mem
    refine ⟨⟨r0, hr0'.1, hr0'.2.1, ?_, hovr_eq⟩, ?_⟩
    · rw [hovr_eq]
      cases hdh : r0.decodedHours with
      | none =>
        have hs := hr0'.2.2
        rw [hdh] at hs
        exact absurd hs (by simp)
      | some hh => simp [mkOverride, hdh]
    · intro r hrmem hrst hrhours hw
      have hrdec : r ∈ decodedReports reports :=
        (hmem r).mpr ⟨hrmem, hrst, hrhours⟩
      cases hwv : oidWriteOf r o with
      | none => exact absurd hwv hw
      | some v =>
        have hvmem : v ∈ (decodedReports reports).filterMap
            (fun r => oidWriteOf r o) :=
          List.mem_filterMap.mpr ⟨r, hrdec, hwv⟩
        have hts : v.timestamp = r.timestamp := by
          rw [oidWriteOf_eq r o v hwv]
          rfl
        have hfm_sorted := pairwise_ts_filterMap (fun r => oidWriteOf r o)
          (fun r v h => by rw [oidWriteOf_eq r o v h]; rfl) _ hsorted
        have hle := ts_le_getLast _ hfm_sorted v hvmem ovr hovr
        rw [← hts]
        exact hle

/-- C8 (witness): two decoded reports for the same street, submitted at
timestamps 100 and 200 (given out of order): the rebuilt street map stores
the override of the later report, and the earlier report's timestamp is
bounded by the stored override's. -/
theorem rebuildSignOverrides_lww_witness :
    lookupAssoc
        (rebuildSignOverrides
          [{ rid := "b", street := some "הרצל", timestamp := 200,
             status := "decoded", decodedHours := some { allWeek := true } },
           { rid := "a", street := some "הרצל", timestamp := 100,
             status := "decoded",
             decodedHours := some { sun_thu := some [(7, 22)] } }]).byStreet
        "הרצל" =
      some (mkOverride { rid := "b", street := some "הרצל", timestamp := 200,
                         status := "decoded",
                         decodedHours := some { allWeek := true } }) ∧
    ({ rid := "a", street := some "הרצל", timestamp := 100,
       status := "decoded",
       decodedHours := some { sun_thu := some [(7, 22)] } } : Report).timestamp ≤
      (mkOverride { rid := "b", street := some "הרצל", timestamp := 200,
                    status := "decoded",
                    decodedHours := some { allWeek := true } }).timestamp := by
  have h := rebuildSignOverrides_lww
    [{ rid := "b", street := some "הרצל", timestamp := 200,
       status := "decoded", decodedHours := some { allWeek := true } },
     { rid := "a", street := some "הרצל", timestamp := 100,
       status := "decoded", decodedHours := some { sun_thu := some [(7, 22)] } }]
  constructor
  · rw [h.1 "הרצל"]
    decide
  · exact (h.2.2.2.2.1 "הרצל" _ (by rw [h.1 "הרצל"]; decide)).2
      { rid := "a", street := some "הרצל", timestamp := 100,
        status := "decoded", decodedHours := some { sun_thu := some [(7, 22)] } }
      (by decide) rfl rfl (by decide)
